import Mathlib

/-!
ID3v2 chapter frames (CHAP / CTOC): a shallow embedding of `id3v2chapters.go`.

The Go source decodes two frame payloads.  The embedding keeps the shape of the source:

* a Go `[]byte` and a Go `string` are lists of bytes (`string(b[:ix])` keeps the bytes);
* a `bytes.Reader` is the list of bytes it has not delivered yet;
* a Go result pair `(value, error)` stays a pair, the error being an `Option`;
* the two collaborators whose code is not part of the file, the fixed-width reader `readUint`
  and the generic frame decoder `readID3v2Frame`, are arguments of the decoders, so that a
  statement can quantify over every behaviour of them;
* the embedded-frame loop `for extraBytes > 0` has no bound in the source, so it runs on fuel:
  one unit per call of the generic frame decoder, `none` when the fuel is spent.
-/

namespace Tag

/-! ## Data model -/

/-- One octet. -/
abbrev Byte := Fin 256

/-- Go `string`: an immutable sequence of bytes. -/
abbrev GoString := List Byte

/-- A `bytes.Reader`, represented by its unread bytes. -/
abbrev Reader := List Byte

/-- Error values handed back by the stream and by the collaborators (`err` in the source). -/
inductive Cause where
  /-- The value `io.EOF`, returned by `bytes.Reader.Read` on an exhausted reader. -/
  | eof
  /-- Short read reported by the fixed-width reader. -/
  | shortRead
  /-- Any other error value of a collaborator. -/
  | external (code : Nat)
  deriving DecidableEq, Repr

/-- Errors built by the two decoders, one constructor per `errors.New` / `fmt.Errorf`. -/
inductive DecodeError where
  /-- Message "no null terminator found for element id". -/
  | noNullTerminator
  /-- Message "error reading start time: %v". -/
  | readingStartTime (cause : Cause)
  /-- Message "error reading end time: %v". -/
  | readingEndTime (cause : Cause)
  /-- Message "error reading start offset: %v". -/
  | readingStartOffset (cause : Cause)
  /-- Message "error reading end offset: %v". -/
  | readingEndOffset (cause : Cause)
  /-- Message "error reading flags: %v". -/
  | readingFlags (cause : Cause)
  /-- Message "error reading entry count: %v". -/
  | readingEntryCount (cause : Cause)
  /-- Message "error reading entry %d: %v". -/
  | readingEntry (i : Nat) (cause : Cause)
  /-- Message "error reading embedded tags: %v"; the cause is `none` on the nil-frame path,
  where the source formats a nil error. -/
  | readingEmbeddedTags (cause : Option Cause)
  deriving DecidableEq, Repr

/-- Dynamic value stored in `map[string]interface{}`: a Go `string`, or a value of any other
dynamic type (the type test `val.(string)` only tells these two apart). -/
inductive Payload where
  | str (s : GoString)
  | other (raw : List Byte)
  deriving DecidableEq, Repr

/-- Go `map[string]interface{}` as an association list with unique keys. -/
abbrev GoMap := List (GoString × Payload)

/-- Map read `m[k]`: the value and the `ok` flag in one `Option`. -/
def mapLookup (m : GoMap) (k : GoString) : Option Payload :=
  match m with
  | [] => none
  | (k1, v) :: rest => if k1 = k then some v else mapLookup rest k

/-- Map write `m[k] = v`: the old entry of `k`, if any, is replaced. -/
def mapAssign (m : GoMap) (k : GoString) (v : Payload) : GoMap :=
  match m with
  | [] => [(k, v)]
  | (k1, v1) :: rest => if k1 = k then (k, v) :: rest else (k1, v1) :: mapAssign rest k v

/-- Read of a possibly nil map: a nil map (`none`) has no entry. -/
def tagsLookup (tags : Option GoMap) (k : GoString) : Option Payload :=
  match tags with
  | none => none
  | some m => mapLookup m k

/-- Source `type Chapter struct`. -/
structure Chapter where
  ElementID : GoString
  StartTime : Nat
  EndTime : Nat
  StartOffset : Nat
  EndOffset : Nat
  EmbeddedTags : Option GoMap
  deriving DecidableEq, Repr

/-- Source `type ChapterTOC struct`. -/
structure ChapterTOC where
  ElementID : GoString
  Entries : List GoString
  EmbeddedTags : Option GoMap
  deriving DecidableEq, Repr

/-- The composite literal `Chapter{}`. -/
def Chapter.zero : Chapter := ⟨[], 0, 0, 0, 0, none⟩

/-- The composite literal `ChapterTOC{}`. -/
def ChapterTOC.zero : ChapterTOC := ⟨[], [], none⟩

/-- The frame name "TIT2" as bytes. -/
def TIT2 : GoString := [0x54, 0x49, 0x54, 0x32]

/-! ## Collaborators -/

/-- Outcome of one call `readUint(r, n)`: the value, the error and the reader afterwards. -/
structure UintRead where
  val : Nat
  err : Option Cause
  rest : Reader
  deriving DecidableEq, Repr

/-- Type of the fixed-width reader `readUint(r, n)`. -/
abbrev UintReader := Reader → Nat → UintRead

/-- Big-endian value of a byte string. -/
def beValue (bs : List Byte) : Nat :=
  bs.foldl (fun acc x => acc * 256 + x.val) 0

/-- Modelled from the spec: `readUint`, the fixed-width unsigned big-endian integer reader,
whose code is not in the file.  The spec (sections 4.2 and 6) says it reads `n` bytes as an
unsigned big-endian integer and that a short read is a failure. -/
def readUint : UintReader := fun r n =>
  if r.length < n then ⟨0, some Cause.shortRead, []⟩
  else ⟨beValue (r.take n), none, r.drop n⟩

/-- A decoded sub-frame as far as the chapter decoders use it: `frame.Name`, `frame.Data` and
the value of `frame.TotalFrameSize()`. -/
structure ID3v2Frame where
  Name : GoString
  Data : Payload
  totalFrameSize : Nat
  deriving DecidableEq, Repr

/-- Outcome of one call `readID3v2Frame(reader, version)`: the frame pointer (`none` is nil),
the error and the reader afterwards. -/
structure FrameRead where
  frame : Option ID3v2Frame
  err : Option Cause
  rest : Reader
  deriving DecidableEq, Repr

/-- Type of the generic frame decoder `readID3v2Frame`. -/
abbrev FrameDecoder (Format : Type) := Reader → Format → FrameRead

/-! ## The functions of `id3v2chapters.go` -/

/-- Source `bytes.Index(b, []byte{c})`: index of the first `c`, or `-1`. -/
def bytesIndex (b : List Byte) (c : Byte) : Int :=
  match b with
  | [] => -1
  | x :: xs =>
    if x = c then 0
    else
      let i := bytesIndex xs c
      if i = -1 then -1 else i + 1

/-- Source `func (c Chapter) Title() string`. -/
def Chapter.Title (c : Chapter) : GoString :=
  match tagsLookup c.EmbeddedTags TIT2 with
  | none => []
  | some val =>
    match val with
    | Payload.str title => title
    | Payload.other _ => []

/-- Source `readChapterUint32`: read a uint32, replacing it with 0 if it is 0xFFFFFFFF. -/
def readChapterUint32 (ru : UintReader) (r : Reader) : UintRead :=
  let res := ru r 4
  match res.err with
  | some e => ⟨0, some e, res.rest⟩
  | none =>
    if res.val = 0xFFFFFFFF then ⟨0, none, res.rest⟩
    else ⟨res.val % 2 ^ 32, none, res.rest⟩

/-- Outcome of `readTerminatedString`: the string, the error and the reader afterwards. -/
structure StringRead where
  val : GoString
  err : Option Cause
  rest : Reader
  deriving DecidableEq, Repr

/-- Loop of `readTerminatedString` over a `bytes.Reader`, with `buf` the bytes written so far.
`r.Read(ch)` with a one-byte `ch` gives `(0, io.EOF)` on an exhausted reader and `(1, nil)`
with `ch[0]` the next byte otherwise, so the branch `n == 0` is never taken on this reader. -/
def readTerminatedStringLoop : Reader → List Byte → StringRead
  | [], _ => ⟨[], some Cause.eof, []⟩
  | c :: rest, buf =>
    if c = 0 then ⟨buf, none, rest⟩
    else readTerminatedStringLoop rest (buf ++ [c])

/-- Source `readTerminatedString`. -/
def readTerminatedString (r : Reader) : StringRead :=
  readTerminatedStringLoop r []

/-- The loop `for extraBytes > 0 { ... }`, which the source has twice, word for word, in
`readChapFrame` and in `readCTOCFrame`.  `tags` is the map filled so far.  Each call of the
generic frame decoder takes one unit of fuel. -/
def embeddedLoop {Format : Type} (dec : FrameDecoder Format) (version : Format) :
    Nat → Reader → Int → GoMap → Option (Except DecodeError GoMap)
  | fuel, reader, extraBytes, tags =>
    if extraBytes > 0 then
      match fuel with
      | 0 => none
      | fuel + 1 =>
        let res := dec reader version
        match res.err with
        | some e => some (Except.error (DecodeError.readingEmbeddedTags (some e)))
        | none =>
          match res.frame with
          | none => some (Except.error (DecodeError.readingEmbeddedTags none))
          | some frame =>
            embeddedLoop dec version fuel res.rest (extraBytes - (frame.totalFrameSize : Int))
              (mapAssign tags frame.Name frame.Data)
    else some (Except.ok tags)

/-- Source `readChapFrame`. -/
def readChapFrame {Format : Type} (ru : UintReader) (dec : FrameDecoder Format) (fuel : Nat)
    (b : List Byte) (version : Format) : Option (Chapter × Option DecodeError) :=
  if b.length = 0 then some (Chapter.zero, none)
  else
    let ix := bytesIndex b 0
    if ix = -1 then some (Chapter.zero, some DecodeError.noNullTerminator)
    else
      let elementID : GoString := b.take ix.toNat
      let reader : Reader := b.drop (ix + 1).toNat
      let st := readChapterUint32 ru reader
      match st.err with
      | some e => some (Chapter.zero, some (DecodeError.readingStartTime e))
      | none =>
      let et := readChapterUint32 ru st.rest
      match et.err with
      | some e => some (Chapter.zero, some (DecodeError.readingEndTime e))
      | none =>
      let so := readChapterUint32 ru et.rest
      match so.err with
      | some e => some (Chapter.zero, some (DecodeError.readingStartOffset e))
      | none =>
      let eo := readChapterUint32 ru so.rest
      match eo.err with
      | some e => some (Chapter.zero, some (DecodeError.readingEndOffset e))
      | none =>
      let bytesRead : Int := ix + 1 + 16
      let result : Chapter := ⟨elementID, st.val, et.val, so.val, eo.val, none⟩
      let extraBytes : Int := (b.length : Int) - bytesRead
      if extraBytes > 0 then
        match embeddedLoop dec version fuel eo.rest extraBytes [] with
        | none => none
        | some (Except.error e) => some (Chapter.zero, some e)
        | some (Except.ok tags) => some ({ result with EmbeddedTags := some tags }, none)
      else some (result, none)

/-- Outcome of the entry loop of `readCTOCFrame`. -/
structure EntriesRead where
  entries : List GoString
  bytesRead : Int
  err : Option DecodeError
  rest : Reader
  deriving DecidableEq, Repr

/-- The loop `for i := 0; i < int(entryCount); i++` of `readCTOCFrame`; `k` is
`entryCount - i`, the number of iterations still to run. -/
def entriesLoop : Nat → Nat → Reader → List GoString → Int → EntriesRead
  | 0, _, reader, entries, bytesRead => ⟨entries, bytesRead, none, reader⟩
  | k + 1, i, reader, entries, bytesRead =>
    let s := readTerminatedString reader
    match s.err with
    | some e => ⟨entries.set i s.val, bytesRead, some (DecodeError.readingEntry i e), s.rest⟩
    | none =>
      entriesLoop k (i + 1) s.rest (entries.set i s.val) (bytesRead + ((s.val.length : Int) + 1))

/-- Source `readCTOCFrame`. -/
def readCTOCFrame {Format : Type} (ru : UintReader) (dec : FrameDecoder Format) (fuel : Nat)
    (b : List Byte) (version : Format) : Option (ChapterTOC × Option DecodeError) :=
  let ix := bytesIndex b 0
  if ix = -1 then some (ChapterTOC.zero, some DecodeError.noNullTerminator)
  else
    let elementID : GoString := b.take ix.toNat
    let reader : Reader := b.drop (ix + 1).toNat
    let fl := ru reader 1
    match fl.err with
    | some e => some (ChapterTOC.zero, some (DecodeError.readingFlags e))
    | none =>
    let ec := ru fl.rest 1
    match ec.err with
    | some e => some (ChapterTOC.zero, some (DecodeError.readingEntryCount e))
    | none =>
    let entryCount := ec.val
    let lp := entriesLoop entryCount 0 ec.rest (List.replicate entryCount []) (ix + 1 + 1 + 1)
    match lp.err with
    | some e => some (ChapterTOC.zero, some e)
    | none =>
    let extraBytes : Int := (b.length : Int) - lp.bytesRead
    if extraBytes > 0 then
      match embeddedLoop dec version fuel lp.rest extraBytes [] with
      | none => none
      | some (Except.error e) => some (ChapterTOC.zero, some e)
      | some (Except.ok tags) => some (⟨elementID, lp.entries, some tags⟩, none)
    else some (⟨elementID, lp.entries, none⟩, none)

/-! ## Reference notions used in the statements -/

/-- Sentinel-normalised big-endian value of a 4-byte word: 0 for FF FF FF FF, the big-endian
value otherwise. -/
def sentinelNorm (w : List Byte) : Nat :=
  if w = [0xFF, 0xFF, 0xFF, 0xFF] then 0 else beValue w

/-- Example generic frame decoder, used to instantiate statements at concrete inputs.  A frame
is a 4-byte name, a 4-byte big-endian payload size, 2 flag bytes and the payload; the payload
of a frame whose name begins with the letter T is one encoding byte followed by the text. -/
def exampleDecoder : FrameDecoder Unit := fun r _ =>
  if r.length < 10 then ⟨none, some Cause.eof, []⟩
  else
    let name := r.take 4
    let size := beValue ((r.drop 4).take 4)
    let body := r.drop 10
    if body.length < size then ⟨none, some Cause.shortRead, []⟩
    else
      let data := body.take size
      let payload := if name.head? = some 0x54 then Payload.str (data.drop 1) else Payload.other data
      ⟨some ⟨name, payload, 10 + size⟩, none, body.drop size⟩

/-- On-wire form of a list of TOC entries: each entry followed by its terminator. -/
def encodeEntries : List GoString → List Byte
  | [] => []
  | e :: es => e ++ 0 :: encodeEntries es

/-- The embedded-frame loop, entered on `reader` with `extraBytes` bytes to account for, obtains
exactly the frames `fs`, in that order, from the generic frame decoder and then leaves the loop
because the remaining count is no longer positive. -/
def LoopObtains {Format : Type} (dec : FrameDecoder Format) (version : Format) :
    Reader → Int → List ID3v2Frame → Prop
  | _, extraBytes, [] => extraBytes ≤ 0
  | reader, extraBytes, f :: fs =>
    0 < extraBytes ∧ (dec reader version).err = none ∧ (dec reader version).frame = some f ∧
      LoopObtains dec version (dec reader version).rest
        (extraBytes - (f.totalFrameSize : Int)) fs

/-- The map after the writes `tags[f.Name] = f.Data` for the frames of `fs`, in order. -/
def recordFrames (tags : GoMap) (fs : List ID3v2Frame) : GoMap :=
  fs.foldl (fun m f => mapAssign m f.Name f.Data) tags

/-- Payload of the last frame of `fs` that carries the name `k`. -/
def lastPayload (fs : List ID3v2Frame) (k : GoString) : Option Payload :=
  match fs with
  | [] => none
  | f :: rest =>
    match lastPayload rest k with
    | some v => some v
    | none => if f.Name = k then some f.Data else none

/-- Sum of the total on-wire sizes reported by the frames of `fs`. -/
def totalSize (fs : List ID3v2Frame) : Int :=
  (fs.map (fun f => (f.totalFrameSize : Int))).sum

/-- Decision procedure for `LoopObtains`, by recursion on the list of frames. -/
instance LoopObtains.decide {Format : Type} (dec : FrameDecoder Format) (version : Format) :
    ∀ (fs : List ID3v2Frame) (reader : Reader) (extraBytes : Int),
      Decidable (LoopObtains dec version reader extraBytes fs)
  | [], _, extraBytes => inferInstanceAs (Decidable (extraBytes ≤ 0))
  | f :: fs, reader, extraBytes =>
    have := LoopObtains.decide dec version fs (dec reader version).rest
      (extraBytes - (f.totalFrameSize : Int))
    inferInstanceAs (Decidable (0 < extraBytes ∧ (dec reader version).err = none ∧
      (dec reader version).frame = some f ∧
      LoopObtains dec version (dec reader version).rest
        (extraBytes - (f.totalFrameSize : Int)) fs))

/-- A "TIT2" frame encoding the text "Intro": header of 10 bytes declaring 6 payload bytes, then
the encoding byte 00 and the five letters. -/
def introFrame : List Byte :=
  [0x54, 0x49, 0x54, 0x32, 0, 0, 0, 6, 0, 0, 0, 0x49, 0x6E, 0x74, 0x72, 0x6F]

/-- The frame `introFrame` cut after 13 bytes: it declares 6 payload bytes and holds 3. -/
def cutFrame : List Byte :=
  [0x54, 0x49, 0x54, 0x32, 0, 0, 0, 6, 0, 0, 0, 0x49, 0x6E]

/-- Two "TIT2" frames in a row, with the texts "A" and "B". -/
def twoTitles : List Byte :=
  [0x54, 0x49, 0x54, 0x32, 0, 0, 0, 2, 0, 0, 0, 0x41,
   0x54, 0x49, 0x54, 0x32, 0, 0, 0, 2, 0, 0, 0, 0x42]

/-- State of `readChapFrame` or `readCTOCFrame` at the point where `extraBytes` has just been
computed (source lines 85 and 151): the value built so far, the reader, and `extraBytes`. -/
structure FixedPart (α : Type) where
  result : α
  reader : Reader
  extraBytes : Int
  deriving DecidableEq

/-- Lines 45 to 85 of `readChapFrame`, up to the computation of `extraBytes`: an early return
of the function (`Except.error`, holding the returned pair) or the state reached at line 85. -/
def readChapFixed (ru : UintReader) (b : List Byte) :
    Except (Chapter × Option DecodeError) (FixedPart Chapter) :=
  if b.length = 0 then Except.error (Chapter.zero, none)
  else
    let ix := bytesIndex b 0
    if ix = -1 then Except.error (Chapter.zero, some DecodeError.noNullTerminator)
    else
      let elementID : GoString := b.take ix.toNat
      let reader : Reader := b.drop (ix + 1).toNat
      let st := readChapterUint32 ru reader
      match st.err with
      | some e => Except.error (Chapter.zero, some (DecodeError.readingStartTime e))
      | none =>
      let et := readChapterUint32 ru st.rest
      match et.err with
      | some e => Except.error (Chapter.zero, some (DecodeError.readingEndTime e))
      | none =>
      let so := readChapterUint32 ru et.rest
      match so.err with
      | some e => Except.error (Chapter.zero, some (DecodeError.readingStartOffset e))
      | none =>
      let eo := readChapterUint32 ru so.rest
      match eo.err with
      | some e => Except.error (Chapter.zero, some (DecodeError.readingEndOffset e))
      | none =>
      let bytesRead : Int := ix + 1 + 16
      Except.ok ⟨⟨elementID, st.val, et.val, so.val, eo.val, none⟩, eo.rest,
        (b.length : Int) - bytesRead⟩

/-- Lines 109 to 151 of `readCTOCFrame`, up to the computation of `extraBytes`: an early return
of the function (`Except.error`, holding the returned pair) or the state reached at line 151. -/
def readCTOCFixed (ru : UintReader) (b : List Byte) :
    Except (ChapterTOC × Option DecodeError) (FixedPart ChapterTOC) :=
  let ix := bytesIndex b 0
  if ix = -1 then Except.error (ChapterTOC.zero, some DecodeError.noNullTerminator)
  else
    let elementID : GoString := b.take ix.toNat
    let reader : Reader := b.drop (ix + 1).toNat
    let fl := ru reader 1
    match fl.err with
    | some e => Except.error (ChapterTOC.zero, some (DecodeError.readingFlags e))
    | none =>
    let ec := ru fl.rest 1
    match ec.err with
    | some e => Except.error (ChapterTOC.zero, some (DecodeError.readingEntryCount e))
    | none =>
    let entryCount := ec.val
    let lp := entriesLoop entryCount 0 ec.rest (List.replicate entryCount []) (ix + 1 + 1 + 1)
    match lp.err with
    | some e => Except.error (ChapterTOC.zero, some e)
    | none => Except.ok ⟨⟨elementID, lp.entries, none⟩, lp.rest, (b.length : Int) - lp.bytesRead⟩

/-- The embedded-frame loop, entered on `reader` with `extraBytes` bytes to account for, obtains
the frames `fs` from the generic frame decoder, is still running after each of them, and its
next call of the decoder returns an error, or no frame and no error. -/
def LoopFails {Format : Type} (dec : FrameDecoder Format) (version : Format) :
    Reader → Int → List ID3v2Frame → Prop
  | reader, extraBytes, [] =>
    0 < extraBytes ∧ ((dec reader version).err ≠ none ∨ (dec reader version).frame = none)
  | reader, extraBytes, f :: fs =>
    0 < extraBytes ∧ (dec reader version).err = none ∧ (dec reader version).frame = some f ∧
      LoopFails dec version (dec reader version).rest
        (extraBytes - (f.totalFrameSize : Int)) fs

/-- Decision procedure for `LoopFails`, by recursion on the list of frames. -/
instance LoopFails.decide {Format : Type} (dec : FrameDecoder Format) (version : Format) :
    ∀ (fs : List ID3v2Frame) (reader : Reader) (extraBytes : Int),
      Decidable (LoopFails dec version reader extraBytes fs)
  | [], reader, extraBytes =>
    inferInstanceAs (Decidable (0 < extraBytes ∧
      ((dec reader version).err ≠ none ∨ (dec reader version).frame = none)))
  | f :: fs, reader, extraBytes =>
    have := LoopFails.decide dec version fs (dec reader version).rest
      (extraBytes - (f.totalFrameSize : Int))
    inferInstanceAs (Decidable (0 < extraBytes ∧ (dec reader version).err = none ∧
      (dec reader version).frame = some f ∧
      LoopFails dec version (dec reader version).rest
        (extraBytes - (f.totalFrameSize : Int)) fs))

/-- Modelled from the spec: the contract of the generic frame decoder `readID3v2Frame`, whose
code is not in the file.  Section 6 of the spec says that a returned sub-frame gives its total
on-wire size: the frame occupies that many bytes of the stream, so that many bytes are there
and the decoder leaves the reader right after them. -/
def OnWireDecoder {Format : Type} (dec : FrameDecoder Format) : Prop :=
  ∀ (r : Reader) (v : Format) (g : ID3v2Frame),
    (dec r v).err = none → (dec r v).frame = some g →
      g.totalFrameSize ≤ r.length ∧ (dec r v).rest = r.drop g.totalFrameSize

/-- The frame `introFrame` followed by three stray bytes, too few for a frame header. -/
def introThenStray : List Byte := introFrame ++ [1, 2, 3]

/-! ## Lemmas on the byte search -/

theorem bytesIndex_absent (b : List Byte) (c : Byte) (h : c ∉ b) : bytesIndex b c = -1 := by
  induction b with
  | nil => rfl
  | cons x xs ih =>
    have hx : x ≠ c := fun e => h (by simp [e])
    have hxs : c ∉ xs := fun m => h (List.mem_cons_of_mem _ m)
    simp [bytesIndex, hx, ih hxs]

theorem bytesIndex_cons_ne (x c : Byte) (xs : List Byte) (h : x ≠ c) :
    bytesIndex (x :: xs) c = if bytesIndex xs c = -1 then -1 else bytesIndex xs c + 1 := by
  simp [bytesIndex, h]

theorem bytesIndex_append (id rest : List Byte) (c : Byte) (h : c ∉ id) :
    bytesIndex (id ++ c :: rest) c = (id.length : Int) := by
  induction id with
  | nil => simp [bytesIndex]
  | cons x xs ih =>
    have hx : x ≠ c := fun e => h (by simp [e])
    have hxs : c ∉ xs := fun m => h (List.mem_cons_of_mem _ m)
    have hne : ¬ ((xs.length : Int) = -1) := by omega
    rw [List.cons_append, bytesIndex_cons_ne x c _ hx, ih hxs, if_neg hne, List.length_cons]
    push_cast
    rfl

/-! ## Lemmas on the fixed-width reads -/

theorem beValue_append_single (bs : List Byte) (x : Byte) :
    beValue (bs ++ [x]) = beValue bs * 256 + x.val := by
  simp [beValue, List.foldl_append]

theorem beValue_lt (bs : List Byte) : beValue bs < 256 ^ bs.length := by
  induction bs using List.reverseRecOn with
  | nil => simp [beValue]
  | append_singleton bs x ih =>
    rw [beValue_append_single, List.length_append, List.length_singleton, pow_succ]
    have := x.isLt
    omega

theorem readUint_append (w rest : List Byte) :
    readUint (w ++ rest) w.length = ⟨beValue w, none, rest⟩ := by
  simp [readUint]

theorem readChapterUint32_word (w rest : List Byte) (h : w.length = 4) :
    readChapterUint32 readUint (w ++ rest) = ⟨sentinelNorm w, none, rest⟩ := by
  have hr := readUint_append w rest
  rw [h] at hr
  have hlt := beValue_lt w
  rw [h] at hlt
  match w, h with
  | [b0, b1, b2, b3], _ =>
    have h0 := b0.isLt
    have h1 := b1.isLt
    have h2 := b2.isLt
    have h3 := b3.isLt
    simp only [readChapterUint32, hr, sentinelNorm]
    by_cases hs : beValue [b0, b1, b2, b3] = 0xFFFFFFFF
    · have hs2 := hs
      simp only [beValue, List.foldl] at hs2
      have e0 : b0 = 0xFF := Fin.ext (by show b0.val = 255; omega)
      have e1 : b1 = 0xFF := Fin.ext (by show b1.val = 255; omega)
      have e2 : b2 = 0xFF := Fin.ext (by show b2.val = 255; omega)
      have e3 : b3 = 0xFF := Fin.ext (by show b3.val = 255; omega)
      rw [if_pos hs, e0, e1, e2, e3, if_pos rfl]
    · have hnot : ¬ [b0, b1, b2, b3] = ([0xFF, 0xFF, 0xFF, 0xFF] : List Byte) := by
        intro e
        apply hs
        rw [e]
        decide
      rw [if_neg hs, if_neg hnot, Nat.mod_eq_of_lt (by simpa using hlt)]

/-! ## Layout lemma for CHAP payloads -/

theorem readChapFrame_layout {Format : Type} (dec : FrameDecoder Format) (fuel : Nat)
    (version : Format) (id w1 w2 w3 w4 T : List Byte) (hid : (0 : Byte) ∉ id)
    (h1 : w1.length = 4) (h2 : w2.length = 4) (h3 : w3.length = 4) (h4 : w4.length = 4) :
    readChapFrame readUint dec fuel (id ++ 0 :: (w1 ++ (w2 ++ (w3 ++ (w4 ++ T))))) version =
      if (T.length : Int) > 0 then
        match embeddedLoop dec version fuel T (T.length : Int) [] with
        | none => none
        | some (Except.error e) => some (Chapter.zero, some e)
        | some (Except.ok tags) =>
          some (⟨id, sentinelNorm w1, sentinelNorm w2, sentinelNorm w3, sentinelNorm w4,
            some tags⟩, none)
      else
        some (⟨id, sentinelNorm w1, sentinelNorm w2, sentinelNorm w3, sentinelNorm w4, none⟩,
          none) := by
  have hix := bytesIndex_append id (w1 ++ (w2 ++ (w3 ++ (w4 ++ T)))) 0 hid
  have hne : ¬ ((id.length : Int) = -1) := by omega
  have hlen : ¬ (id ++ 0 :: (w1 ++ (w2 ++ (w3 ++ (w4 ++ T))))).length = 0 := by simp
  have htn : ((id.length : Int) + 1).toNat = id.length + 1 := by omega
  have hdrop : (id ++ 0 :: (w1 ++ (w2 ++ (w3 ++ (w4 ++ T))))).drop (id.length + 1)
      = w1 ++ (w2 ++ (w3 ++ (w4 ++ T))) := by
    rw [show id ++ 0 :: (w1 ++ (w2 ++ (w3 ++ (w4 ++ T))))
        = (id ++ [0]) ++ (w1 ++ (w2 ++ (w3 ++ (w4 ++ T)))) by simp]
    exact List.drop_left' (by simp)
  have hextra : ((id ++ 0 :: (w1 ++ (w2 ++ (w3 ++ (w4 ++ T))))).length : Int)
      - ((id.length : Int) + 1 + 16) = (T.length : Int) := by
    simp only [List.length_append, List.length_cons, h1, h2, h3, h4]
    push_cast
    omega
  unfold readChapFrame
  simp only [hlen, if_false, hix, hne, htn, hdrop, Int.toNat_ofNat, List.take_left,
    readChapterUint32_word _ _ h1, readChapterUint32_word _ _ h2,
    readChapterUint32_word _ _ h3, readChapterUint32_word _ _ h4, hextra]

/-! ## Lemmas on the terminated strings and the entry loop -/

theorem readTerminatedStringLoop_append (s rest buf : List Byte) (hs : (0 : Byte) ∉ s) :
    readTerminatedStringLoop (s ++ 0 :: rest) buf = ⟨buf ++ s, none, rest⟩ := by
  induction s generalizing buf with
  | nil => simp [readTerminatedStringLoop]
  | cons x xs ih =>
    have hx : x ≠ 0 := fun e => hs (by simp [e])
    have hxs : (0 : Byte) ∉ xs := fun m => hs (List.mem_cons_of_mem _ m)
    rw [List.cons_append, readTerminatedStringLoop, if_neg hx, ih _ hxs]
    simp

theorem readTerminatedString_append (s rest : List Byte) (hs : (0 : Byte) ∉ s) :
    readTerminatedString (s ++ 0 :: rest) = ⟨s, none, rest⟩ := by
  simp [readTerminatedString, readTerminatedStringLoop_append s rest [] hs]

theorem set_after (done tl : List GoString) (x e : GoString) :
    (done ++ x :: tl).set done.length e = done ++ e :: tl := by
  induction done with
  | nil => rfl
  | cons d ds ih => simp [List.set, ih]

theorem encodeEntries_length_cons (e : GoString) (es : List GoString) :
    ((encodeEntries (e :: es)).length : Int)
      = ((e.length : Int) + 1) + ((encodeEntries es).length : Int) := by
  simp [encodeEntries]
  omega

theorem entriesLoop_encoded (es : List GoString) (hes : ∀ e ∈ es, (0 : Byte) ∉ e)
    (done : List GoString) (rest : List Byte) (bytesRead : Int) :
    entriesLoop es.length done.length (encodeEntries es ++ rest)
        (done ++ List.replicate es.length []) bytesRead
      = ⟨done ++ es, bytesRead + ((encodeEntries es).length : Int), none, rest⟩ := by
  induction es generalizing done bytesRead with
  | nil => simp [entriesLoop, encodeEntries]
  | cons e es ih =>
    have he : (0 : Byte) ∉ e := hes e (by simp)
    have hes2 : ∀ x ∈ es, (0 : Byte) ∉ x := fun x hx => hes x (List.mem_cons_of_mem _ hx)
    have hrd : readTerminatedString (encodeEntries (e :: es) ++ rest)
        = ⟨e, none, encodeEntries es ++ rest⟩ := by
      have := readTerminatedString_append e (encodeEntries es ++ rest) he
      simpa [encodeEntries] using this
    have hset : (done ++ List.replicate (e :: es).length ([] : GoString)).set done.length e
        = (done ++ [e]) ++ List.replicate es.length [] := by
      rw [List.length_cons, List.replicate_succ, set_after]
      simp
    have hstep := ih hes2 (done ++ [e]) (bytesRead + ((e.length : Int) + 1))
    rw [List.length_append, List.length_singleton] at hstep
    rw [List.length_cons, entriesLoop]
    simp only [hrd]
    rw [← List.length_cons e es, hset, hstep, encodeEntries_length_cons]
    simp [add_assoc]

/-! ## Layout lemma for CTOC payloads -/

theorem readUint_one (x : Byte) (rest : List Byte) :
    readUint (x :: rest) 1 = ⟨x.val, none, rest⟩ := by
  simp [readUint, beValue]

theorem readCTOCFrame_layout {Format : Type} (dec : FrameDecoder Format) (fuel : Nat)
    (version : Format) (id : List Byte) (f n : Byte) (es : List GoString) (T : List Byte)
    (hid : (0 : Byte) ∉ id) (hes : ∀ e ∈ es, (0 : Byte) ∉ e) (hn : es.length = n.val) :
    readCTOCFrame readUint dec fuel (id ++ 0 :: f :: n :: (encodeEntries es ++ T)) version =
      if (T.length : Int) > 0 then
        match embeddedLoop dec version fuel T (T.length : Int) [] with
        | none => none
        | some (Except.error e) => some (ChapterTOC.zero, some e)
        | some (Except.ok tags) => some (⟨id, es, some tags⟩, none)
      else some (⟨id, es, none⟩, none) := by
  have hix := bytesIndex_append id (f :: n :: (encodeEntries es ++ T)) 0 hid
  have hne : ¬ ((id.length : Int) = -1) := by omega
  have htn : ((id.length : Int) + 1).toNat = id.length + 1 := by omega
  have hdrop : (id ++ 0 :: f :: n :: (encodeEntries es ++ T)).drop (id.length + 1)
      = f :: n :: (encodeEntries es ++ T) := by
    rw [show id ++ 0 :: f :: n :: (encodeEntries es ++ T)
        = (id ++ [0]) ++ (f :: n :: (encodeEntries es ++ T)) by simp]
    exact List.drop_left' (by simp)
  have hloop := entriesLoop_encoded es hes [] T ((id.length : Int) + 1 + 1 + 1)
  simp only [List.length_nil, List.nil_append] at hloop
  have hextra : ((id ++ 0 :: f :: n :: (encodeEntries es ++ T)).length : Int)
      - ((id.length : Int) + 1 + 1 + 1 + ((encodeEntries es).length : Int))
      = (T.length : Int) := by
    simp only [List.length_append, List.length_cons]
    push_cast
    omega
  unfold readCTOCFrame
  simp only [hix, hne, if_false, htn, hdrop, Int.toNat_ofNat, List.take_left, readUint_one,
    ← hn, hloop, hextra]

/-! ## Lemmas on the map and on the embedded-frame loop -/

theorem mapLookup_mapAssign_self (m : GoMap) (k : GoString) (v : Payload) :
    mapLookup (mapAssign m k v) k = some v := by
  induction m with
  | nil => simp [mapAssign, mapLookup]
  | cons p rest ih =>
    obtain ⟨k1, v1⟩ := p
    by_cases h : k1 = k
    · simp [mapAssign, mapLookup, h]
    · simp [mapAssign, mapLookup, h, ih]

theorem mapLookup_mapAssign_ne (m : GoMap) (k k2 : GoString) (v : Payload) (hk : k ≠ k2) :
    mapLookup (mapAssign m k v) k2 = mapLookup m k2 := by
  induction m with
  | nil => simp [mapAssign, mapLookup, hk]
  | cons p rest ih =>
    obtain ⟨k1, v1⟩ := p
    by_cases h : k1 = k
    · subst h
      simp [mapAssign, mapLookup, hk]
    · by_cases h2 : k1 = k2
      · subst h2
        simp [mapAssign, mapLookup, h]
      · simp [mapAssign, mapLookup, h, h2, ih]

theorem mapLookup_recordFrames (fs : List ID3v2Frame) (tags : GoMap) (k : GoString) :
    mapLookup (recordFrames tags fs) k =
      match lastPayload fs k with
      | some v => some v
      | none => mapLookup tags k := by
  induction fs generalizing tags with
  | nil => simp [recordFrames, lastPayload]
  | cons f rest ih =>
    have hstep : recordFrames tags (f :: rest)
        = recordFrames (mapAssign tags f.Name f.Data) rest := rfl
    rw [hstep, ih, lastPayload]
    cases hl : lastPayload rest k with
    | some v => rfl
    | none =>
      by_cases hk : f.Name = k
      · subst hk
        simp [mapLookup_mapAssign_self]
      · simp [hk, mapLookup_mapAssign_ne _ _ _ _ hk]

theorem embeddedLoop_of_obtains {Format : Type} (dec : FrameDecoder Format) (version : Format)
    (fs : List ID3v2Frame) (fuel : Nat) (reader : Reader) (extraBytes : Int) (tags : GoMap)
    (hrun : LoopObtains dec version reader extraBytes fs) (hfuel : fs.length ≤ fuel) :
    embeddedLoop dec version fuel reader extraBytes tags
      = some (Except.ok (recordFrames tags fs)) := by
  induction fs generalizing fuel reader extraBytes tags with
  | nil =>
    have h : ¬ extraBytes > 0 := by
      simp only [LoopObtains] at hrun
      omega
    unfold embeddedLoop
    simp [h, recordFrames]
  | cons f rest ih =>
    obtain ⟨hpos, herr, hframe, hrest⟩ := hrun
    cases fuel with
    | zero => simp at hfuel
    | succ fuel =>
      have hf : rest.length ≤ fuel := by simpa using hfuel
      unfold embeddedLoop
      simp only [gt_iff_lt, hpos, if_true, herr, hframe]
      exact ih fuel _ _ _ hrest hf

theorem lastPayload_ne_none_iff (fs : List ID3v2Frame) (k : GoString) :
    lastPayload fs k ≠ none ↔ ∃ f ∈ fs, f.Name = k := by
  induction fs with
  | nil => simp [lastPayload]
  | cons f rest ih =>
    rw [lastPayload]
    cases hl : lastPayload rest k with
    | some v =>
      have hex : ∃ g ∈ rest, g.Name = k := ih.mp (by rw [hl]; simp)
      obtain ⟨g, hg, hgk⟩ := hex
      simp only [ne_eq, reduceCtorEq, not_false_eq_true, true_iff]
      exact ⟨g, List.mem_cons_of_mem _ hg, hgk⟩
    | none =>
      have hno : ¬ ∃ g ∈ rest, g.Name = k := fun hex => (ih.mpr hex) hl
      by_cases hk : f.Name = k
      · simp only [hk, if_true, ne_eq, reduceCtorEq, not_false_eq_true, true_iff]
        exact ⟨f, by simp, hk⟩
      · simp only [hk, if_false, ne_eq, not_true_eq_false, false_iff]
        rintro ⟨g, hg, hgk⟩
        rcases List.mem_cons.mp hg with e | hmem
        · exact hk (e ▸ hgk)
        · exact hno ⟨g, hmem, hgk⟩

theorem loopObtains_pos {Format : Type} (dec : FrameDecoder Format) (version : Format)
    (fs : List ID3v2Frame) (reader : Reader) (extraBytes : Int) (hne : fs ≠ [])
    (hrun : LoopObtains dec version reader extraBytes fs) : extraBytes > 0 := by
  cases fs with
  | nil => exact absurd rfl hne
  | cons f rest => exact hrun.1

theorem readChapFrame_of_obtains {Format : Type} (dec : FrameDecoder Format) (fuel : Nat)
    (version : Format) (id w1 w2 w3 w4 T : List Byte) (fs : List ID3v2Frame)
    (hid : (0 : Byte) ∉ id)
    (h1 : w1.length = 4) (h2 : w2.length = 4) (h3 : w3.length = 4) (h4 : w4.length = 4)
    (hne : fs ≠ []) (hrun : LoopObtains dec version T (T.length : Int) fs)
    (hfuel : fs.length ≤ fuel) :
    readChapFrame readUint dec fuel (id ++ [0] ++ w1 ++ w2 ++ w3 ++ w4 ++ T) version =
      some (⟨id, sentinelNorm w1, sentinelNorm w2, sentinelNorm w3, sentinelNorm w4,
        some (recordFrames [] fs)⟩, none) := by
  have hpos := loopObtains_pos dec version fs T _ hne hrun
  have h := readChapFrame_layout dec fuel version id w1 w2 w3 w4 T hid h1 h2 h3 h4
  rw [show id ++ [0] ++ w1 ++ w2 ++ w3 ++ w4 ++ T = id ++ 0 :: (w1 ++ (w2 ++ (w3 ++ (w4 ++ T))))
    by simp, h, if_pos hpos, embeddedLoop_of_obtains dec version fs fuel T _ [] hrun hfuel]

theorem readCTOCFrame_of_obtains {Format : Type} (dec : FrameDecoder Format) (fuel : Nat)
    (version : Format) (id : List Byte) (f n : Byte) (es : List GoString) (T : List Byte)
    (fs : List ID3v2Frame) (hid : (0 : Byte) ∉ id) (hes : ∀ e ∈ es, (0 : Byte) ∉ e)
    (hn : es.length = n.val)
    (hne : fs ≠ []) (hrun : LoopObtains dec version T (T.length : Int) fs)
    (hfuel : fs.length ≤ fuel) :
    readCTOCFrame readUint dec fuel (id ++ [0] ++ [f] ++ [n] ++ encodeEntries es ++ T) version =
      some (⟨id, es, some (recordFrames [] fs)⟩, none) := by
  have hpos := loopObtains_pos dec version fs T _ hne hrun
  have h := readCTOCFrame_layout dec fuel version id f n es T hid hes hn
  rw [show id ++ [0] ++ [f] ++ [n] ++ encodeEntries es ++ T
      = id ++ 0 :: f :: n :: (encodeEntries es ++ T) by simp,
    h, if_pos hpos, embeddedLoop_of_obtains dec version fs fuel T _ [] hrun hfuel]

theorem readChapFrame_no_terminator {Format : Type} (ru : UintReader)
    (dec : FrameDecoder Format) (fuel : Nat) (version : Format) (b : List Byte)
    (hb : (0 : Byte) ∉ b) (hne : b ≠ []) :
    readChapFrame ru dec fuel b version
      = some (Chapter.zero, some DecodeError.noNullTerminator) := by
  have hlen : ¬ b.length = 0 := by
    intro h
    exact hne (List.length_eq_zero.mp h)
  simp [readChapFrame, hlen, bytesIndex_absent b 0 hb]

theorem readCTOCFrame_no_terminator {Format : Type} (ru : UintReader)
    (dec : FrameDecoder Format) (fuel : Nat) (version : Format) (b : List Byte)
    (hb : (0 : Byte) ∉ b) :
    readCTOCFrame ru dec fuel b version
      = some (ChapterTOC.zero, some DecodeError.noNullTerminator) := by
  simp [readCTOCFrame, bytesIndex_absent b 0 hb]

/-! ## The claims -/

/-- C1 (sentinel law of `readChapterUint32`): on every stream holding at least four bytes
`b0 b1 b2 b3`, the result is 0 when all four are FF and the big-endian value
`b0 * 2^24 + b1 * 2^16 + b2 * 2^8 + b3` otherwise; no error is returned and the reader is left
after exactly these four bytes.  In particular 00 00 01 00 gives 256. -/
theorem readChapterUint32_sentinel_law (b0 b1 b2 b3 : Byte) (rest : Reader) :
    readChapterUint32 readUint (b0 :: b1 :: b2 :: b3 :: rest) =
        ⟨if b0 = 0xFF ∧ b1 = 0xFF ∧ b2 = 0xFF ∧ b3 = 0xFF then 0
          else b0.val * 2 ^ 24 + b1.val * 2 ^ 16 + b2.val * 2 ^ 8 + b3.val, none, rest⟩
      ∧ readChapterUint32 readUint (0x00 :: 0x00 :: 0x01 :: 0x00 :: rest) = ⟨256, none, rest⟩ := by
  have key : ∀ c0 c1 c2 c3 : Byte, readChapterUint32 readUint (c0 :: c1 :: c2 :: c3 :: rest) =
      ⟨if c0 = 0xFF ∧ c1 = 0xFF ∧ c2 = 0xFF ∧ c3 = 0xFF then 0
        else c0.val * 2 ^ 24 + c1.val * 2 ^ 16 + c2.val * 2 ^ 8 + c3.val, none, rest⟩ := by
    intro c0 c1 c2 c3
    have h := readChapterUint32_word [c0, c1, c2, c3] rest rfl
    rw [show [c0, c1, c2, c3] ++ rest = c0 :: c1 :: c2 :: c3 :: rest from rfl] at h
    rw [h, sentinelNorm]
    by_cases hall : c0 = 0xFF ∧ c1 = 0xFF ∧ c2 = 0xFF ∧ c3 = 0xFF
    · obtain ⟨e0, e1, e2, e3⟩ := hall
      subst e0 e1 e2 e3
      rw [if_pos rfl, if_pos ⟨rfl, rfl, rfl, rfl⟩]
    · have hne : ¬ [c0, c1, c2, c3] = ([0xFF, 0xFF, 0xFF, 0xFF] : List Byte) := by
        intro e
        apply hall
        simpa using e
      rw [if_neg hne, if_neg hall]
      have hval : beValue [c0, c1, c2, c3]
          = c0.val * 2 ^ 24 + c1.val * 2 ^ 16 + c2.val * 2 ^ 8 + c3.val := by
        simp only [beValue, List.foldl]
        ring
      rw [hval]
  refine ⟨key b0 b1 b2 b3, ?_⟩
  rw [key]
  simp

/-- C2 (CHAP decode without embedded frames): for a zero-free `id` and four 4-byte words, the
payload `id ++ [0] ++ w1 ++ w2 ++ w3 ++ w4` decodes, for every version, every generic frame
decoder and every amount of fuel (also none at all, so the decoder is never called), to the
chapter with that element id, the four sentinel-normalised values in the order start time,
end time, start offset, end offset, and no embedded tags. -/
theorem readChapFrame_no_embedded {Format : Type} (dec : FrameDecoder Format) (fuel : Nat)
    (version : Format) (id w1 w2 w3 w4 : List Byte) (hid : (0 : Byte) ∉ id)
    (h1 : w1.length = 4) (h2 : w2.length = 4) (h3 : w3.length = 4) (h4 : w4.length = 4) :
    readChapFrame readUint dec fuel (id ++ [0] ++ w1 ++ w2 ++ w3 ++ w4) version =
      some (⟨id, sentinelNorm w1, sentinelNorm w2, sentinelNorm w3, sentinelNorm w4, none⟩,
        none) := by
  have h := readChapFrame_layout dec fuel version id w1 w2 w3 w4 [] hid h1 h2 h3 h4
  simp only [List.append_nil] at h
  rw [show id ++ [0] ++ w1 ++ w2 ++ w3 ++ w4 = id ++ 0 :: (w1 ++ (w2 ++ (w3 ++ w4))) by simp, h]
  simp

/-- Witness of C2: "AB" 00 followed by sixteen FF bytes. -/
theorem readChapFrame_no_embedded_witness :
    (0 : Byte) ∉ ([0x41, 0x42] : List Byte) ∧
    readChapFrame readUint exampleDecoder 0
        ([0x41, 0x42] ++ [0] ++ [0xFF, 0xFF, 0xFF, 0xFF] ++ [0xFF, 0xFF, 0xFF, 0xFF]
          ++ [0xFF, 0xFF, 0xFF, 0xFF] ++ [0xFF, 0xFF, 0xFF, 0xFF]) ()
      = some (⟨[0x41, 0x42], 0, 0, 0, 0, none⟩, none) :=
  ⟨by decide,
    readChapFrame_no_embedded exampleDecoder 0 () [0x41, 0x42] [0xFF, 0xFF, 0xFF, 0xFF]
      [0xFF, 0xFF, 0xFF, 0xFF] [0xFF, 0xFF, 0xFF, 0xFF] [0xFF, 0xFF, 0xFF, 0xFF]
      (by decide) rfl rfl rfl rfl⟩

/-- C3 (CTOC decode without embedded frames): for a zero-free `id`, any flags byte `f`, and a
list `es` of zero-free entries whose length is the count byte `n` (so at most 255), the payload
`id ++ [0] ++ [f] ++ [n] ++ e_1 ++ [0] ++ ... ++ e_N ++ [0]` decodes, for every version, every
generic frame decoder and every amount of fuel (also none, so the decoder is never called), to
the table of contents with that element id, the entries in on-wire order and no embedded
tags. -/
theorem readCTOCFrame_no_embedded {Format : Type} (dec : FrameDecoder Format) (fuel : Nat)
    (version : Format) (id : List Byte) (f n : Byte) (es : List GoString)
    (hid : (0 : Byte) ∉ id) (hes : ∀ e ∈ es, (0 : Byte) ∉ e) (hn : es.length = n.val) :
    readCTOCFrame readUint dec fuel (id ++ [0] ++ [f] ++ [n] ++ encodeEntries es) version =
      some (⟨id, es, none⟩, none) := by
  have h := readCTOCFrame_layout dec fuel version id f n es [] hid hes hn
  simp only [List.append_nil] at h
  rw [show id ++ [0] ++ [f] ++ [n] ++ encodeEntries es = id ++ 0 :: f :: n :: encodeEntries es
    by simp, h]
  simp

/-- Witness of C3: "TOC" 00 00 02 "ch1" 00 "ch2" 00 gives the entries "ch1", "ch2". -/
theorem readCTOCFrame_no_embedded_witness :
    ((0 : Byte) ∉ ([0x54, 0x4F, 0x43] : List Byte) ∧
      (∀ e ∈ ([[0x63, 0x68, 0x31], [0x63, 0x68, 0x32]] : List GoString), (0 : Byte) ∉ e) ∧
      ([[0x63, 0x68, 0x31], [0x63, 0x68, 0x32]] : List GoString).length = (2 : Byte).val) ∧
    readCTOCFrame readUint exampleDecoder 0
        ([0x54, 0x4F, 0x43] ++ [0] ++ [0] ++ [2]
          ++ encodeEntries [[0x63, 0x68, 0x31], [0x63, 0x68, 0x32]]) ()
      = some (⟨[0x54, 0x4F, 0x43], [[0x63, 0x68, 0x31], [0x63, 0x68, 0x32]], none⟩, none) :=
  ⟨⟨by decide, by decide, by decide⟩,
    readCTOCFrame_no_embedded exampleDecoder 0 () [0x54, 0x4F, 0x43] 0 2
      [[0x63, 0x68, 0x31], [0x63, 0x68, 0x32]] (by decide) (by decide) (by decide)⟩

/-- C4 (empty-payload law): for every version (and whatever the collaborators do, with any
fuel), `readChapFrame` on the zero-length payload returns the zero-valued chapter, that is an
empty element id, four zero fields and no embedded tags, and no error. -/
theorem readChapFrame_empty_payload {Format : Type} (ru : UintReader)
    (dec : FrameDecoder Format) (fuel : Nat) (version : Format) :
    readChapFrame ru dec fuel [] version = some (⟨[], 0, 0, 0, 0, none⟩, none) := by
  simp [readChapFrame, Chapter.zero]

/-- C5, as stated, fails on the empty payload: it holds no zero byte, and `readChapFrame`
returns the zero-valued chapter with no error instead of the missing-terminator error. -/
theorem no_zero_byte_empty_counterexample :
    (0 : Byte) ∉ ([] : List Byte) ∧
    readChapFrame readUint exampleDecoder 0 [] () = some (⟨[], 0, 0, 0, 0, none⟩, none) ∧
    readChapFrame readUint exampleDecoder 0 [] ()
      ≠ some (Chapter.zero, some DecodeError.noNullTerminator) := by
  decide

/-- C5, amended: for every payload holding no zero byte and every version, `readCTOCFrame`
fails with the missing-terminator error, and so does `readChapFrame` unless the payload is
empty; a failure carries the zero value and no decoded result.  On the empty payload
`readChapFrame` returns the zero-valued chapter and no error. -/
theorem no_zero_byte_outcome {Format : Type} (ru : UintReader) (dec : FrameDecoder Format)
    (fuel : Nat) (version : Format) (b : List Byte) (hb : (0 : Byte) ∉ b) :
    readCTOCFrame ru dec fuel b version
        = some (ChapterTOC.zero, some DecodeError.noNullTerminator) ∧
    readChapFrame ru dec fuel b version
        = if b = [] then some (Chapter.zero, none)
          else some (Chapter.zero, some DecodeError.noNullTerminator) := by
  refine ⟨readCTOCFrame_no_terminator ru dec fuel version b hb, ?_⟩
  by_cases hne : b = []
  · subst hne
    simp [readChapFrame]
  · rw [if_neg hne]
    exact readChapFrame_no_terminator ru dec fuel version b hb hne

/-- Witness of the amended C5: the one-byte payload "A". -/
theorem no_zero_byte_outcome_witness :
    (0 : Byte) ∉ ([0x41] : List Byte) ∧
    (readCTOCFrame readUint exampleDecoder 0 [0x41] ()
        = some (ChapterTOC.zero, some DecodeError.noNullTerminator) ∧
      readChapFrame readUint exampleDecoder 0 [0x41] ()
        = if ([0x41] : List Byte) = [] then some (Chapter.zero, none)
          else some (Chapter.zero, some DecodeError.noNullTerminator)) :=
  ⟨by decide, no_zero_byte_outcome readUint exampleDecoder 0 () [0x41] (by decide)⟩

/-- C6 (a missing element-id terminator is rejected before anything else is read): on a
payload holding no zero byte, `readCTOCFrame` returns the missing-terminator error (also on the
empty payload) and `readChapFrame` returns it on every non-empty such payload.  The outcome is
the same for every fixed-width reader, every generic frame decoder and every amount of fuel,
none included: neither collaborator takes part in it. -/
theorem missing_terminator_rejected_first {Format : Type} (ru : UintReader)
    (dec : FrameDecoder Format) (fuel : Nat) (version : Format) (b : List Byte)
    (hb : (0 : Byte) ∉ b) :
    readCTOCFrame ru dec fuel b version
        = some (ChapterTOC.zero, some DecodeError.noNullTerminator) ∧
    (b ≠ [] → readChapFrame ru dec fuel b version
        = some (Chapter.zero, some DecodeError.noNullTerminator)) :=
  ⟨readCTOCFrame_no_terminator ru dec fuel version b hb,
    fun hne => readChapFrame_no_terminator ru dec fuel version b hb hne⟩

/-- Witness of C6: the payload "AB", with a fixed-width reader that always fails and no fuel. -/
theorem missing_terminator_rejected_first_witness :
    (0 : Byte) ∉ ([0x41, 0x42] : List Byte) ∧
    (readCTOCFrame (fun _ _ => ⟨0, some Cause.shortRead, []⟩) exampleDecoder 0 [0x41, 0x42] ()
        = some (ChapterTOC.zero, some DecodeError.noNullTerminator) ∧
      (([0x41, 0x42] : List Byte) ≠ [] →
        readChapFrame (fun _ _ => ⟨0, some Cause.shortRead, []⟩) exampleDecoder 0 [0x41, 0x42] ()
          = some (Chapter.zero, some DecodeError.noNullTerminator))) :=
  ⟨by decide,
    missing_terminator_rejected_first (fun _ _ => ⟨0, some Cause.shortRead, []⟩) exampleDecoder
      0 () [0x41, 0x42] (by decide)⟩

/-- C7 (title accessor): `Title` returns `s` when the embedded tags hold a text `s` under the
key "TIT2", and the empty string when the embedded tags are absent, when the key is missing
and when the value under the key is not a text.  It is a total function: it never fails. -/
theorem chapter_title_cases (c : Chapter) :
    (∀ s, tagsLookup c.EmbeddedTags TIT2 = some (Payload.str s) → c.Title = s) ∧
    (c.EmbeddedTags = none → c.Title = []) ∧
    (tagsLookup c.EmbeddedTags TIT2 = none → c.Title = []) ∧
    (∀ raw, tagsLookup c.EmbeddedTags TIT2 = some (Payload.other raw) → c.Title = []) := by
  refine ⟨?_, ?_, ?_, ?_⟩
  · intro s h
    simp [Chapter.Title, h]
  · intro h
    simp [Chapter.Title, h, tagsLookup]
  · intro h
    simp [Chapter.Title, h]
  · intro raw h
    simp [Chapter.Title, h]

/-- Witness of C7: a chapter whose embedded tags hold the text "Intro" under "TIT2", next to a
non-text value under another key. -/
theorem chapter_title_cases_witness :
    tagsLookup (Chapter.mk [0x41, 0x42] 0 10 0 20
        (some [([0x41, 0x50, 0x49, 0x43], Payload.other [1, 2]),
          (TIT2, Payload.str [0x49, 0x6E, 0x74, 0x72, 0x6F])])).EmbeddedTags TIT2
      = some (Payload.str [0x49, 0x6E, 0x74, 0x72, 0x6F]) ∧
    (Chapter.mk [0x41, 0x42] 0 10 0 20
        (some [([0x41, 0x50, 0x49, 0x43], Payload.other [1, 2]),
          (TIT2, Payload.str [0x49, 0x6E, 0x74, 0x72, 0x6F])])).Title
      = [0x49, 0x6E, 0x74, 0x72, 0x6F] :=
  ⟨by decide,
    (chapter_title_cases (Chapter.mk [0x41, 0x42] 0 10 0 20
        (some [([0x41, 0x50, 0x49, 0x43], Payload.other [1, 2]),
          (TIT2, Payload.str [0x49, 0x6E, 0x74, 0x72, 0x6F])]))).1
      [0x49, 0x6E, 0x74, 0x72, 0x6F] (by decide)⟩

/-- C8 (CHAP decode with one embedded title frame): for a zero-free `id`, four 4-byte words and
a non-empty trailing region `T`, if the generic frame decoder applied to `T` with the same
version yields, without error, a frame named "TIT2" with text payload `t` and total on-wire
size `len(T)`, then `readChapFrame` succeeds (one unit of fuel is enough), the fixed fields are
those of the case without embedded frames, the embedded tags map "TIT2" to `t` and hold nothing
else, and `Title` of the result is `t`. -/
theorem readChapFrame_embedded_title {Format : Type} (dec : FrameDecoder Format) (fuel : Nat)
    (version : Format) (id w1 w2 w3 w4 T : List Byte) (t : GoString) (hid : (0 : Byte) ∉ id)
    (h1 : w1.length = 4) (h2 : w2.length = 4) (h3 : w3.length = 4) (h4 : w4.length = 4)
    (hT : T ≠ []) (herr : (dec T version).err = none)
    (hframe : (dec T version).frame = some ⟨TIT2, Payload.str t, T.length⟩) :
    readChapFrame readUint dec (fuel + 1) (id ++ [0] ++ w1 ++ w2 ++ w3 ++ w4 ++ T) version
        = some (⟨id, sentinelNorm w1, sentinelNorm w2, sentinelNorm w3, sentinelNorm w4,
            some [(TIT2, Payload.str t)]⟩, none) ∧
    (∀ k, tagsLookup (some [(TIT2, Payload.str t)]) k
        = if k = TIT2 then some (Payload.str t) else none) ∧
    Chapter.Title ⟨id, sentinelNorm w1, sentinelNorm w2, sentinelNorm w3, sentinelNorm w4,
        some [(TIT2, Payload.str t)]⟩ = t := by
  have hpos : (0 : Int) < (T.length : Int) := by
    have := List.length_pos.mpr hT
    omega
  have hrun : LoopObtains dec version T (T.length : Int) [⟨TIT2, Payload.str t, T.length⟩] :=
    ⟨hpos, herr, hframe, by simp [LoopObtains]⟩
  refine ⟨?_, ?_, ?_⟩
  · exact readChapFrame_of_obtains dec (fuel + 1) version id w1 w2 w3 w4 T _ hid h1 h2 h3 h4
      (by simp) hrun (by simp)
  · intro k
    by_cases hk : k = TIT2
    · simp [tagsLookup, mapLookup, hk]
    · have hk2 : ¬ TIT2 = k := fun e => hk e.symm
      simp [tagsLookup, mapLookup, hk, hk2]
  · simp [Chapter.Title, tagsLookup, mapLookup]

/-- Witness of C8: "AB" 00, the words 0, 10, 0, 20 and the "TIT2" frame encoding "Intro" give
end time 10, end offset 20 and the title "Intro". -/
theorem readChapFrame_embedded_title_witness :
    ((0 : Byte) ∉ ([0x41, 0x42] : List Byte) ∧ introFrame ≠ [] ∧
      (exampleDecoder introFrame ()).err = none ∧
      (exampleDecoder introFrame ()).frame
        = some ⟨TIT2, Payload.str [0x49, 0x6E, 0x74, 0x72, 0x6F], introFrame.length⟩) ∧
    (readChapFrame readUint exampleDecoder (0 + 1)
        ([0x41, 0x42] ++ [0] ++ [0, 0, 0, 0] ++ [0, 0, 0, 10] ++ [0, 0, 0, 0] ++ [0, 0, 0, 20]
          ++ introFrame) ()
        = some (⟨[0x41, 0x42], 0, 10, 0, 20,
            some [(TIT2, Payload.str [0x49, 0x6E, 0x74, 0x72, 0x6F])]⟩, none) ∧
      (∀ k, tagsLookup (some [(TIT2, Payload.str [0x49, 0x6E, 0x74, 0x72, 0x6F])]) k
        = if k = TIT2 then some (Payload.str [0x49, 0x6E, 0x74, 0x72, 0x6F]) else none) ∧
      Chapter.Title ⟨[0x41, 0x42], 0, 10, 0, 20,
          some [(TIT2, Payload.str [0x49, 0x6E, 0x74, 0x72, 0x6F])]⟩
        = [0x49, 0x6E, 0x74, 0x72, 0x6F]) :=
  ⟨⟨by decide, by decide, by decide, by decide⟩,
    readChapFrame_embedded_title exampleDecoder 0 () [0x41, 0x42] [0, 0, 0, 0] [0, 0, 0, 10]
      [0, 0, 0, 0] [0, 0, 0, 20] introFrame [0x49, 0x6E, 0x74, 0x72, 0x6F]
      (by decide) rfl rfl rfl rfl (by decide) (by decide) (by decide)⟩

/-- C10 (last write wins in the embedded tags): for every CHAP or CTOC payload whose fixed part
parses, if the embedded-frame loop obtains the frames `f_1 .. f_n` (`n ≥ 1`) in that order from
the generic frame decoder and then ends, the decode succeeds with embedded tags `m` in which
every key maps to the payload of the last frame carrying that name, and the keys of `m` are
exactly the names of `f_1 .. f_n`. -/
theorem embedded_tags_last_write_wins {Format : Type} (dec : FrameDecoder Format) (fuel : Nat)
    (version : Format) (id w1 w2 w3 w4 : List Byte) (f n : Byte) (es : List GoString)
    (T : List Byte) (fs : List ID3v2Frame) (hid : (0 : Byte) ∉ id)
    (h1 : w1.length = 4) (h2 : w2.length = 4) (h3 : w3.length = 4) (h4 : w4.length = 4)
    (hes : ∀ e ∈ es, (0 : Byte) ∉ e) (hn : es.length = n.val) (hne : fs ≠ [])
    (hrun : LoopObtains dec version T (T.length : Int) fs) (hfuel : fs.length ≤ fuel) :
    ∃ m : GoMap,
      readChapFrame readUint dec fuel (id ++ [0] ++ w1 ++ w2 ++ w3 ++ w4 ++ T) version
          = some (⟨id, sentinelNorm w1, sentinelNorm w2, sentinelNorm w3, sentinelNorm w4,
              some m⟩, none) ∧
      readCTOCFrame readUint dec fuel (id ++ [0] ++ [f] ++ [n] ++ encodeEntries es ++ T) version
          = some (⟨id, es, some m⟩, none) ∧
      ∀ k, mapLookup m k = lastPayload fs k ∧
        (mapLookup m k ≠ none ↔ ∃ g ∈ fs, g.Name = k) := by
  refine ⟨recordFrames [] fs,
    readChapFrame_of_obtains dec fuel version id w1 w2 w3 w4 T fs hid h1 h2 h3 h4 hne hrun hfuel,
    readCTOCFrame_of_obtains dec fuel version id f n es T fs hid hes hn hne hrun hfuel, ?_⟩
  intro k
  have hk : mapLookup (recordFrames [] fs) k = lastPayload fs k := by
    rw [mapLookup_recordFrames]
    cases lastPayload fs k with
    | none => rfl
    | some v => rfl
  exact ⟨hk, by rw [hk]; exact lastPayload_ne_none_iff fs k⟩

/-- Witness of C10: two "TIT2" frames in a row, with the texts "A" and "B". -/
theorem embedded_tags_last_write_wins_witness :
    ((0 : Byte) ∉ ([0x41, 0x42] : List Byte) ∧
      (∀ e ∈ ([[0x63]] : List GoString), (0 : Byte) ∉ e) ∧
      ([[0x63]] : List GoString).length = (1 : Byte).val ∧
      ([⟨TIT2, Payload.str [0x41], 12⟩, ⟨TIT2, Payload.str [0x42], 12⟩] : List ID3v2Frame) ≠ [] ∧
      LoopObtains exampleDecoder () twoTitles (twoTitles.length : Int)
        [⟨TIT2, Payload.str [0x41], 12⟩, ⟨TIT2, Payload.str [0x42], 12⟩]) ∧
    (∃ m : GoMap,
      readChapFrame readUint exampleDecoder 2
          ([0x41, 0x42] ++ [0] ++ [0, 0, 0, 0] ++ [0, 0, 0, 10] ++ [0, 0, 0, 0] ++ [0, 0, 0, 20]
            ++ twoTitles) ()
          = some (⟨[0x41, 0x42], sentinelNorm [0, 0, 0, 0], sentinelNorm [0, 0, 0, 10],
              sentinelNorm [0, 0, 0, 0], sentinelNorm [0, 0, 0, 20], some m⟩, none) ∧
      readCTOCFrame readUint exampleDecoder 2
          ([0x41, 0x42] ++ [0] ++ [0] ++ [1] ++ encodeEntries [[0x63]] ++ twoTitles) ()
          = some (⟨[0x41, 0x42], [[0x63]], some m⟩, none) ∧
      ∀ k, mapLookup m k
          = lastPayload [⟨TIT2, Payload.str [0x41], 12⟩, ⟨TIT2, Payload.str [0x42], 12⟩] k ∧
        (mapLookup m k ≠ none ↔
          ∃ g ∈ ([⟨TIT2, Payload.str [0x41], 12⟩, ⟨TIT2, Payload.str [0x42], 12⟩] :
            List ID3v2Frame), g.Name = k)) :=
  ⟨⟨by decide, by decide, by decide, by decide, by decide⟩,
    embedded_tags_last_write_wins exampleDecoder 2 () [0x41, 0x42] [0, 0, 0, 0] [0, 0, 0, 10]
      [0, 0, 0, 0] [0, 0, 0, 20] 0 1 [[0x63]] twoTitles
      [⟨TIT2, Payload.str [0x41], 12⟩, ⟨TIT2, Payload.str [0x42], 12⟩]
      (by decide) rfl rfl rfl rfl (by decide) (by decide) (by decide) (by decide) (by decide)⟩

/-! ## The fixed part of the two decoders -/

theorem readChapFrame_eq_fixed {Format : Type} (ru : UintReader) (dec : FrameDecoder Format)
    (fuel : Nat) (b : List Byte) (version : Format) :
    readChapFrame ru dec fuel b version =
      match readChapFixed ru b with
      | Except.error ret => some ret
      | Except.ok st =>
        if st.extraBytes > 0 then
          match embeddedLoop dec version fuel st.reader st.extraBytes [] with
          | none => none
          | some (Except.error e) => some (Chapter.zero, some e)
          | some (Except.ok tags) => some ({ st.result with EmbeddedTags := some tags }, none)
        else some (st.result, none) := by
  unfold readChapFrame readChapFixed
  by_cases h0 : b.length = 0
  · simp [h0]
  · by_cases h1 : bytesIndex b 0 = -1
    · simp [h0, h1]
    · simp only [h0, h1, if_false]
      cases hst : (readChapterUint32 ru (List.drop (bytesIndex b 0 + 1).toNat b)).err with
      | some e => rfl
      | none =>
        simp only []
        cases het : (readChapterUint32 ru
            (readChapterUint32 ru (List.drop (bytesIndex b 0 + 1).toNat b)).rest).err with
        | some e => rfl
        | none =>
          simp only []
          cases hso : (readChapterUint32 ru (readChapterUint32 ru
              (readChapterUint32 ru (List.drop (bytesIndex b 0 + 1).toNat b)).rest).rest).err with
          | some e => rfl
          | none =>
            simp only []
            cases heo : (readChapterUint32 ru (readChapterUint32 ru (readChapterUint32 ru
                (readChapterUint32 ru
                  (List.drop (bytesIndex b 0 + 1).toNat b)).rest).rest).rest).err with
            | some e => rfl
            | none => rfl

theorem readCTOCFrame_eq_fixed {Format : Type} (ru : UintReader) (dec : FrameDecoder Format)
    (fuel : Nat) (b : List Byte) (version : Format) :
    readCTOCFrame ru dec fuel b version =
      match readCTOCFixed ru b with
      | Except.error ret => some ret
      | Except.ok st =>
        if st.extraBytes > 0 then
          match embeddedLoop dec version fuel st.reader st.extraBytes [] with
          | none => none
          | some (Except.error e) => some (ChapterTOC.zero, some e)
          | some (Except.ok tags) => some ({ st.result with EmbeddedTags := some tags }, none)
        else some (st.result, none) := by
  unfold readCTOCFrame readCTOCFixed
  by_cases h1 : bytesIndex b 0 = -1
  · simp [h1]
  · simp only [h1, if_false]
    cases hfl : (ru (List.drop (bytesIndex b 0 + 1).toNat b) 1).err with
    | some e => rfl
    | none =>
      simp only []
      cases hec : (ru (ru (List.drop (bytesIndex b 0 + 1).toNat b) 1).rest 1).err with
      | some e => rfl
      | none =>
        simp only []
        cases hlp : (entriesLoop (ru (ru (List.drop (bytesIndex b 0 + 1).toNat b) 1).rest 1).val 0
            (ru (ru (List.drop (bytesIndex b 0 + 1).toNat b) 1).rest 1).rest
            (List.replicate (ru (ru (List.drop (bytesIndex b 0 + 1).toNat b) 1).rest 1).val [])
            (bytesIndex b 0 + 1 + 1 + 1)).err with
        | some e => rfl
        | none => rfl

/-! ## Inversion lemmas -/

theorem bytesIndex_ge (b : List Byte) (c : Byte) : -1 ≤ bytesIndex b c := by
  induction b with
  | nil => simp [bytesIndex]
  | cons x xs ih =>
    by_cases hx : x = c
    · simp [bytesIndex, hx]
    · rw [bytesIndex_cons_ne x c xs hx]
      split <;> omega

theorem bytesIndex_found (b : List Byte) (c : Byte) (h : bytesIndex b c ≠ -1) :
    0 ≤ bytesIndex b c ∧ (bytesIndex b c).toNat < b.length ∧
      c ∉ b.take (bytesIndex b c).toNat ∧
      b = b.take (bytesIndex b c).toNat ++ c :: b.drop ((bytesIndex b c).toNat + 1) := by
  induction b with
  | nil => simp [bytesIndex] at h
  | cons x xs ih =>
    by_cases hx : x = c
    · subst hx
      simp [bytesIndex]
    · rw [bytesIndex_cons_ne x c xs hx] at h ⊢
      by_cases hi : bytesIndex xs c = -1
      · simp [hi] at h
      · obtain ⟨h0, hlt, hnot, hsplit⟩ := ih hi
        rw [if_neg hi]
        have htn : (bytesIndex xs c + 1).toNat = (bytesIndex xs c).toNat + 1 := by omega
        rw [htn]
        refine ⟨by omega, by simp; omega, ?_, ?_⟩
        · simp only [List.take_succ_cons, List.mem_cons, not_or]
          exact ⟨fun e => hx e.symm, hnot⟩
        · simp only [List.take_succ_cons, List.drop_succ_cons, List.cons_append]
          rw [← hsplit]

theorem readUint_ok (r : Reader) (n : Nat) (h : (readUint r n).err = none) :
    n ≤ r.length ∧ readUint r n = ⟨beValue (r.take n), none, r.drop n⟩ := by
  unfold readUint at h ⊢
  by_cases hl : r.length < n
  · simp [hl] at h
  · simp only [hl, if_false]
    exact ⟨by omega, trivial⟩

theorem readChapterUint32_short (r : Reader) (h : r.length < 4) :
    readChapterUint32 readUint r = ⟨0, some Cause.shortRead, []⟩ := by
  simp [readChapterUint32, readUint, h]

theorem readChapterUint32_long (r : Reader) (h : 4 ≤ r.length) :
    readChapterUint32 readUint r = ⟨sentinelNorm (r.take 4), none, r.drop 4⟩ := by
  have hw := readChapterUint32_word (r.take 4) (r.drop 4) (by simp; omega)
  rwa [List.take_append_drop] at hw

theorem readChapterUint32_ok (r : Reader) (h : (readChapterUint32 readUint r).err = none) :
    4 ≤ r.length ∧ readChapterUint32 readUint r = ⟨sentinelNorm (r.take 4), none, r.drop 4⟩ := by
  by_cases hl : r.length < 4
  · rw [readChapterUint32_short r hl] at h
    simp at h
  · exact ⟨by omega, readChapterUint32_long r (by omega)⟩

theorem sentinelNorm_ne (w : List Byte) (h : w.length ≤ 4) : sentinelNorm w ≠ 0xFFFFFFFF := by
  unfold sentinelNorm
  split
  · decide
  · rename_i hne
    intro hv
    have hlt := beValue_lt w
    have hlen : w.length = 4 := by
      by_contra hcon
      have h3 : w.length ≤ 3 := by omega
      have : 256 ^ w.length ≤ 256 ^ 3 := Nat.pow_le_pow_right (by decide) h3
      omega
    match w, hlen with
    | [b0, b1, b2, b3], _ =>
      have h0 := b0.isLt
      have h1 := b1.isLt
      have h2 := b2.isLt
      have h3 := b3.isLt
      simp only [beValue, List.foldl] at hv
      apply hne
      have e0 : b0 = 0xFF := Fin.ext (by show b0.val = 255; omega)
      have e1 : b1 = 0xFF := Fin.ext (by show b1.val = 255; omega)
      have e2 : b2 = 0xFF := Fin.ext (by show b2.val = 255; omega)
      have e3 : b3 = 0xFF := Fin.ext (by show b3.val = 255; omega)
      rw [e0, e1, e2, e3]

theorem readTerminatedStringLoop_eof (s buf : List Byte) (hs : (0 : Byte) ∉ s) :
    readTerminatedStringLoop s buf = ⟨[], some Cause.eof, []⟩ := by
  induction s generalizing buf with
  | nil => rfl
  | cons x xs ih =>
    have hx : x ≠ 0 := fun e => hs (by simp [e])
    have hxs : (0 : Byte) ∉ xs := fun m => hs (List.mem_cons_of_mem _ m)
    rw [readTerminatedStringLoop, if_neg hx, ih _ hxs]

theorem exists_first_zero (l : List Byte) (h : (0 : Byte) ∈ l) :
    ∃ s rest, l = s ++ 0 :: rest ∧ (0 : Byte) ∉ s := by
  induction l with
  | nil => simp at h
  | cons x xs ih =>
    by_cases hx : x = 0
    · exact ⟨[], xs, by simp [hx], by simp⟩
    · have hmem : (0 : Byte) ∈ xs := by
        rcases List.mem_cons.mp h with e | m
        · exact absurd e.symm hx
        · exact m
      obtain ⟨s, rest, hsplit, hs⟩ := ih hmem
      refine ⟨x :: s, rest, by simp [hsplit], ?_⟩
      simp only [List.mem_cons, not_or]
      exact ⟨fun e => hx e.symm, hs⟩

theorem readTerminatedString_ok (r : Reader) (h : (readTerminatedString r).err = none) :
    (0 : Byte) ∉ (readTerminatedString r).val ∧
      r = (readTerminatedString r).val ++ 0 :: (readTerminatedString r).rest := by
  by_cases hz : (0 : Byte) ∈ r
  · obtain ⟨s, rest, hsplit, hs⟩ := exists_first_zero r hz
    rw [hsplit, readTerminatedString_append s rest hs]
    exact ⟨hs, rfl⟩
  · rw [readTerminatedString, readTerminatedStringLoop_eof r [] hz] at h
    simp at h

theorem readTerminatedString_val_zero_free (r : Reader) :
    (0 : Byte) ∉ (readTerminatedString r).val := by
  by_cases hz : (0 : Byte) ∈ r
  · obtain ⟨s, rest, hsplit, hs⟩ := exists_first_zero r hz
    rw [hsplit, readTerminatedString_append s rest hs]
    exact hs
  · rw [readTerminatedString, readTerminatedStringLoop_eof r [] hz]
    simp

theorem entriesLoop_length (k i : Nat) (r : Reader) (entries : List GoString) (br : Int) :
    (entriesLoop k i r entries br).entries.length = entries.length := by
  induction k generalizing i r entries br with
  | zero => rfl
  | succ k ih =>
    rw [entriesLoop]
    cases hs : (readTerminatedString r).err with
    | some e => simp
    | none =>
      simp only []
      rw [ih]
      simp

theorem entriesLoop_zero_free (k i : Nat) (r : Reader) (entries : List GoString) (br : Int)
    (h : ∀ e ∈ entries, (0 : Byte) ∉ e) :
    ∀ e ∈ (entriesLoop k i r entries br).entries, (0 : Byte) ∉ e := by
  induction k generalizing i r entries br with
  | zero => exact h
  | succ k ih =>
    have hset : ∀ e ∈ entries.set i (readTerminatedString r).val, (0 : Byte) ∉ e := by
      intro e he
      rcases List.mem_or_eq_of_mem_set he with hm | heq
      · exact h e hm
      · rw [heq]
        exact readTerminatedString_val_zero_free r
    rw [entriesLoop]
    cases hs : (readTerminatedString r).err with
    | some e => exact hset
    | none => exact ih _ _ _ _ hset

theorem entriesLoop_accounting (k i : Nat) (r : Reader) (entries : List GoString) (br : Int)
    (h : (entriesLoop k i r entries br).err = none) :
    (entriesLoop k i r entries br).bytesRead - br
      = (r.length : Int) - ((entriesLoop k i r entries br).rest.length : Int) := by
  induction k generalizing i r entries br with
  | zero => simp [entriesLoop]
  | succ k ih =>
    rw [entriesLoop] at h ⊢
    cases hs : (readTerminatedString r).err with
    | some e =>
      rw [hs] at h
      simp at h
    | none =>
      rw [hs] at h
      simp only [] at h ⊢
      have hstep := ih _ _ _ _ h
      have hsplit := (readTerminatedString_ok r hs).2
      have hlen : (r.length : Int) = ((readTerminatedString r).val.length : Int) + 1
          + ((readTerminatedString r).rest.length : Int) := by
        have := congrArg List.length hsplit
        simp only [List.length_append, List.length_cons] at this
        omega
      omega

theorem count_zero_split (s rest : List Byte) (hs : (0 : Byte) ∉ s) :
    (s ++ 0 :: rest).count 0 = rest.count 0 + 1 := by
  rw [List.count_append, List.count_eq_zero_of_not_mem hs, List.count_cons_self]
  omega

theorem entriesLoop_runs_out (k i : Nat) (tail : Reader) (entries : List GoString) (br : Int)
    (h : tail.count 0 < k) :
    (entriesLoop k i tail entries br).err
      = some (DecodeError.readingEntry (i + tail.count 0) Cause.eof) := by
  induction k generalizing i tail entries br with
  | zero => omega
  | succ k ih =>
    rw [entriesLoop]
    by_cases hz : (0 : Byte) ∈ tail
    · obtain ⟨s, rest, hsplit, hs⟩ := exists_first_zero tail hz
      have hcount := count_zero_split s rest hs
      rw [hsplit, readTerminatedString_append s rest hs]
      simp only []
      rw [ih, hcount]
      · congr 2
        omega
      · rw [hsplit, hcount] at h
        omega
    · rw [readTerminatedString, readTerminatedStringLoop_eof tail [] hz]
      simp [List.count_eq_zero_of_not_mem hz]

theorem readChapFixed_ok (ru : UintReader) (b : List Byte) (st : FixedPart Chapter)
    (h : readChapFixed ru b = Except.ok st) :
    b ≠ [] ∧ bytesIndex b 0 ≠ -1 ∧
    ∃ a1 a2 a3 a4 : UintRead,
      a1 = readChapterUint32 ru (b.drop (bytesIndex b 0 + 1).toNat) ∧
      a2 = readChapterUint32 ru a1.rest ∧ a3 = readChapterUint32 ru a2.rest ∧
      a4 = readChapterUint32 ru a3.rest ∧
      a1.err = none ∧ a2.err = none ∧ a3.err = none ∧ a4.err = none ∧
      st = ⟨⟨b.take (bytesIndex b 0).toNat, a1.val, a2.val, a3.val, a4.val, none⟩, a4.rest,
        (b.length : Int) - (bytesIndex b 0 + 1 + 16)⟩ := by
  unfold readChapFixed at h
  by_cases h0 : b.length = 0
  · simp [h0] at h
  · by_cases h1 : bytesIndex b 0 = -1
    · simp [h0, h1] at h
    · simp only [h0, h1, if_false] at h
      have hb : b ≠ [] := fun e => h0 (by simp [e])
      refine ⟨hb, h1, _, _, _, _, rfl, rfl, rfl, rfl, ?_⟩
      cases hst : (readChapterUint32 ru (List.drop (bytesIndex b 0 + 1).toNat b)).err with
      | some e => simp [hst] at h
      | none =>
        simp only [hst] at h
        cases het : (readChapterUint32 ru
            (readChapterUint32 ru (List.drop (bytesIndex b 0 + 1).toNat b)).rest).err with
        | some e => simp [het] at h
        | none =>
          simp only [het] at h
          cases hso : (readChapterUint32 ru (readChapterUint32 ru
              (readChapterUint32 ru (List.drop (bytesIndex b 0 + 1).toNat b)).rest).rest).err with
          | some e => simp [hso] at h
          | none =>
            simp only [hso] at h
            cases heo : (readChapterUint32 ru (readChapterUint32 ru (readChapterUint32 ru
                (readChapterUint32 ru
                  (List.drop (bytesIndex b 0 + 1).toNat b)).rest).rest).rest).err with
            | some e => simp [heo] at h
            | none =>
              simp only [heo] at h
              exact ⟨rfl, rfl, rfl, rfl, (Except.ok.inj h).symm⟩

theorem readChapFixed_error_nil (ru : UintReader) (b : List Byte) (c : Chapter)
    (h : readChapFixed ru b = Except.error (c, none)) : b = [] ∧ c = Chapter.zero := by
  unfold readChapFixed at h
  by_cases h0 : b.length = 0
  · simp only [h0, if_true] at h
    have hc := (Prod.mk.inj (Except.error.inj h)).1
    exact ⟨List.length_eq_zero.mp h0, hc.symm⟩
  · by_cases h1 : bytesIndex b 0 = -1
    · simp [h0, h1] at h
    · simp only [h0, h1, if_false] at h
      split at h
      · simp at h
      · split at h
        · simp at h
        · split at h
          · simp at h
          · split at h
            · simp at h
            · simp at h

theorem readCTOCFixed_ok (ru : UintReader) (b : List Byte) (st : FixedPart ChapterTOC)
    (h : readCTOCFixed ru b = Except.ok st) :
    bytesIndex b 0 ≠ -1 ∧
    ∃ (fl ec : UintRead) (lp : EntriesRead),
      fl = ru (b.drop (bytesIndex b 0 + 1).toNat) 1 ∧ ec = ru fl.rest 1 ∧
      lp = entriesLoop ec.val 0 ec.rest (List.replicate ec.val []) (bytesIndex b 0 + 1 + 1 + 1) ∧
      fl.err = none ∧ ec.err = none ∧ lp.err = none ∧
      st = ⟨⟨b.take (bytesIndex b 0).toNat, lp.entries, none⟩, lp.rest,
        (b.length : Int) - lp.bytesRead⟩ := by
  unfold readCTOCFixed at h
  by_cases h1 : bytesIndex b 0 = -1
  · simp [h1] at h
  · simp only [h1, if_false] at h
    refine ⟨h1, _, _, _, rfl, rfl, rfl, ?_⟩
    cases hfl : (ru (List.drop (bytesIndex b 0 + 1).toNat b) 1).err with
    | some e => simp [hfl] at h
    | none =>
      simp only [hfl] at h
      cases hec : (ru (ru (List.drop (bytesIndex b 0 + 1).toNat b) 1).rest 1).err with
      | some e => simp [hec] at h
      | none =>
        simp only [hec] at h
        cases hlp : (entriesLoop (ru (ru (List.drop (bytesIndex b 0 + 1).toNat b) 1).rest 1).val 0
            (ru (ru (List.drop (bytesIndex b 0 + 1).toNat b) 1).rest 1).rest
            (List.replicate (ru (ru (List.drop (bytesIndex b 0 + 1).toNat b) 1).rest 1).val [])
            (bytesIndex b 0 + 1 + 1 + 1)).err with
        | some e => simp [hlp] at h
        | none =>
          simp only [hlp] at h
          exact ⟨rfl, rfl, rfl, (Except.ok.inj h).symm⟩

theorem readCTOCFixed_error_some (ru : UintReader) (b : List Byte) (c : ChapterTOC)
    (h : readCTOCFixed ru b = Except.error (c, none)) : False := by
  unfold readCTOCFixed at h
  by_cases h1 : bytesIndex b 0 = -1
  · simp [h1] at h
  · simp only [h1, if_false] at h
    split at h
    · simp at h
    · split at h
      · simp at h
      · split at h
        · simp at h
        · simp at h

theorem readChapFrame_success {Format : Type} (ru : UintReader) (dec : FrameDecoder Format)
    (fuel : Nat) (b : List Byte) (version : Format) (c : Chapter)
    (h : readChapFrame ru dec fuel b version = some (c, none)) :
    (b = [] ∧ c = Chapter.zero) ∨
    ∃ st, readChapFixed ru b = Except.ok st ∧ c.ElementID = st.result.ElementID ∧
      c.StartTime = st.result.StartTime ∧ c.EndTime = st.result.EndTime ∧
      c.StartOffset = st.result.StartOffset ∧ c.EndOffset = st.result.EndOffset := by
  rw [readChapFrame_eq_fixed] at h
  cases hf : readChapFixed ru b with
  | error ret =>
    rw [hf] at h
    simp only [Option.some.injEq] at h
    rw [h] at hf
    exact Or.inl (readChapFixed_error_nil ru b c hf)
  | ok st =>
    rw [hf] at h
    right
    refine ⟨st, rfl, ?_⟩
    simp only [] at h
    split at h
    · split at h
      · simp at h
      · simp at h
      · simp only [Option.some.injEq, Prod.mk.injEq, and_true] at h
        rw [← h]
        exact ⟨rfl, rfl, rfl, rfl, rfl⟩
    · simp only [Option.some.injEq, Prod.mk.injEq, and_true] at h
      rw [← h]
      exact ⟨rfl, rfl, rfl, rfl, rfl⟩

theorem readCTOCFrame_success {Format : Type} (ru : UintReader) (dec : FrameDecoder Format)
    (fuel : Nat) (b : List Byte) (version : Format) (toc : ChapterTOC)
    (h : readCTOCFrame ru dec fuel b version = some (toc, none)) :
    ∃ st, readCTOCFixed ru b = Except.ok st ∧ toc.ElementID = st.result.ElementID ∧
      toc.Entries = st.result.Entries := by
  rw [readCTOCFrame_eq_fixed] at h
  cases hf : readCTOCFixed ru b with
  | error ret =>
    rw [hf] at h
    simp only [Option.some.injEq] at h
    rw [h] at hf
    exact absurd hf (fun e => readCTOCFixed_error_some ru b toc e)
  | ok st =>
    rw [hf] at h
    refine ⟨st, rfl, ?_⟩
    simp only [] at h
    split at h
    · split at h
      · simp at h
      · simp at h
      · simp only [Option.some.injEq, Prod.mk.injEq, and_true] at h
        rw [← h]
        exact ⟨rfl, rfl⟩
    · simp only [Option.some.injEq, Prod.mk.injEq, and_true] at h
      rw [← h]
      exact ⟨rfl, rfl⟩

/-! ## The claims, continued -/

/-- C11 (terminated-string reader, normal termination): on a stream holding `s ++ [0] ++ rest`
with `s` free of zero bytes, `readTerminatedString` returns `s` and no error and leaves exactly
`rest` unread: the cursor advances by `len(s) + 1` bytes, the terminator being consumed and
left out of the result. -/
theorem readTerminatedString_terminated (s rest : List Byte) (hs : (0 : Byte) ∉ s) :
    readTerminatedString (s ++ [0] ++ rest) = ⟨s, none, rest⟩ ∧
    (s ++ [0] ++ rest).length - rest.length = s.length + 1 := by
  refine ⟨?_, ?_⟩
  · rw [show s ++ [0] ++ rest = s ++ 0 :: rest by simp]
    exact readTerminatedString_append s rest hs
  · simp only [List.length_append, List.length_singleton]
    omega

/-- Witness of C11: "ch1" 00 followed by "ch2" 00. -/
theorem readTerminatedString_terminated_witness :
    (0 : Byte) ∉ ([0x63, 0x68, 0x31] : List Byte) ∧
    (readTerminatedString ([0x63, 0x68, 0x31] ++ [0] ++ [0x63, 0x68, 0x32, 0])
        = ⟨[0x63, 0x68, 0x31], none, [0x63, 0x68, 0x32, 0]⟩ ∧
      ([0x63, 0x68, 0x31] ++ [0] ++ [0x63, 0x68, 0x32, 0] : List Byte).length
          - ([0x63, 0x68, 0x32, 0] : List Byte).length
        = ([0x63, 0x68, 0x31] : List Byte).length + 1) :=
  ⟨by decide,
    readTerminatedString_terminated [0x63, 0x68, 0x31] [0x63, 0x68, 0x32, 0] (by decide)⟩

/-- C12, as stated, fails: on the reader holding exactly "AB", which has no zero byte,
`readTerminatedString` returns the empty string with the end-of-stream error, not "AB" with
no error. -/
theorem end_of_stream_counterexample :
    (0 : Byte) ∉ ([0x41, 0x42] : List Byte) ∧
    readTerminatedString [0x41, 0x42] = ⟨[], some Cause.eof, []⟩ ∧
    readTerminatedString [0x41, 0x42] ≠ ⟨[0x41, 0x42], none, []⟩ := by
  decide

/-- C12, amended: for every byte string `s` without a zero byte, the empty one included,
`readTerminatedString` on the in-memory reader holding exactly `s` consumes all `len(s)` bytes
and returns the empty string together with the end-of-stream error `io.EOF`: running out of
stream before a terminator is a failure. -/
theorem readTerminatedString_end_of_stream (s : List Byte) (hs : (0 : Byte) ∉ s) :
    readTerminatedString s = ⟨[], some Cause.eof, []⟩ := by
  rw [readTerminatedString, readTerminatedStringLoop_eof s [] hs]

/-- Witness of the amended C12: the reader holding "AB". -/
theorem readTerminatedString_end_of_stream_witness :
    (0 : Byte) ∉ ([0x41, 0x42] : List Byte) ∧
    readTerminatedString [0x41, 0x42] = ⟨[], some Cause.eof, []⟩ :=
  ⟨by decide, readTerminatedString_end_of_stream [0x41, 0x42] (by decide)⟩

/-- C13 (sentinel invariant of decoded chapters): for every payload, version, generic frame
decoder and fuel, if `readChapFrame` succeeds then none of the start time, end time, start
offset and end offset of the chapter it returns is 0xFFFFFFFF. -/
theorem chapter_fields_never_sentinel {Format : Type} (dec : FrameDecoder Format) (fuel : Nat)
    (b : List Byte) (version : Format) (c : Chapter)
    (h : readChapFrame readUint dec fuel b version = some (c, none)) :
    c.StartTime ≠ 0xFFFFFFFF ∧ c.EndTime ≠ 0xFFFFFFFF ∧
    c.StartOffset ≠ 0xFFFFFFFF ∧ c.EndOffset ≠ 0xFFFFFFFF := by
  rcases readChapFrame_success readUint dec fuel b version c h with ⟨_, hz⟩ | ⟨st, hst, _, e1, e2, e3, e4⟩
  · rw [hz]
    decide
  · obtain ⟨_, _, a1, a2, a3, a4, d1, d2, d3, d4, k1, k2, k3, k4, hval⟩ :=
      readChapFixed_ok readUint b st hst
    have key : ∀ (a : UintRead) (r : Reader), a = readChapterUint32 readUint r → a.err = none →
        a.val ≠ 0xFFFFFFFF := by
      intro a r ha herr
      rw [ha] at herr
      rw [ha, (readChapterUint32_ok r herr).2]
      exact sentinelNorm_ne _ (by simp)
    rw [e1, e2, e3, e4, hval]
    exact ⟨key a1 _ d1 k1, key a2 _ d2 k2, key a3 _ d3 k3, key a4 _ d4 k4⟩

/-- Witness of C13: "AB" 00 followed by sixteen FF bytes decodes, and no field of the result
is 0xFFFFFFFF. -/
theorem chapter_fields_never_sentinel_witness :
    readChapFrame readUint exampleDecoder 0
        [0x41, 0x42, 0, 0xFF, 0xFF, 0xFF, 0xFF, 0xFF, 0xFF, 0xFF, 0xFF, 0xFF, 0xFF, 0xFF, 0xFF,
          0xFF, 0xFF, 0xFF, 0xFF] ()
      = some (⟨[0x41, 0x42], 0, 0, 0, 0, none⟩, none) ∧
    ((Chapter.mk [0x41, 0x42] 0 0 0 0 none).StartTime ≠ 0xFFFFFFFF ∧
      (Chapter.mk [0x41, 0x42] 0 0 0 0 none).EndTime ≠ 0xFFFFFFFF ∧
      (Chapter.mk [0x41, 0x42] 0 0 0 0 none).StartOffset ≠ 0xFFFFFFFF ∧
      (Chapter.mk [0x41, 0x42] 0 0 0 0 none).EndOffset ≠ 0xFFFFFFFF) :=
  ⟨by decide,
    chapter_fields_never_sentinel exampleDecoder 0
      [0x41, 0x42, 0, 0xFF, 0xFF, 0xFF, 0xFF, 0xFF, 0xFF, 0xFF, 0xFF, 0xFF, 0xFF, 0xFF, 0xFF,
        0xFF, 0xFF, 0xFF, 0xFF] () ⟨[0x41, 0x42], 0, 0, 0, 0, none⟩ (by decide)⟩

theorem readUint_one_ok (r : Reader) (h : (readUint r 1).err = none) :
    ∃ n : Byte, r[0]? = some n ∧ (readUint r 1).val = n.val ∧ (readUint r 1).rest = r.drop 1 := by
  obtain ⟨hlen, heq⟩ := readUint_ok r 1 h
  match r, hlen with
  | x :: xs, _ =>
    refine ⟨x, by simp, ?_, ?_⟩
    · rw [readUint_one]
    · rw [readUint_one]
      rfl

/-- C14 (the number of entries is the on-wire count): for every payload, version, generic
frame decoder and fuel, if `readCTOCFrame` succeeds then the payload has a first zero byte, a
byte `n` stands two positions after it, and the returned `Entries` has exactly `n` elements,
whether or not embedded frames follow. -/
theorem entries_length_is_count_byte {Format : Type} (dec : FrameDecoder Format) (fuel : Nat)
    (b : List Byte) (version : Format) (toc : ChapterTOC)
    (h : readCTOCFrame readUint dec fuel b version = some (toc, none)) :
    bytesIndex b 0 ≠ -1 ∧
    ∃ n : Byte, b[(bytesIndex b 0).toNat + 2]? = some n ∧ toc.Entries.length = n.val := by
  obtain ⟨st, hst, _, hent⟩ := readCTOCFrame_success readUint dec fuel b version toc h
  obtain ⟨hfound, fl, ec, lp, dfl, dec2, dlp, kfl, kec, _, hval⟩ := readCTOCFixed_ok readUint b st hst
  obtain ⟨h0, _, _, _⟩ := bytesIndex_found b 0 hfound
  have htn : (bytesIndex b 0 + 1).toNat = (bytesIndex b 0).toNat + 1 := by omega
  rw [dfl] at kfl
  obtain ⟨f, _, _, hrest⟩ := readUint_one_ok _ kfl
  rw [dec2, dfl, hrest] at kec
  obtain ⟨n, hn, hnval, _⟩ := readUint_one_ok _ kec
  refine ⟨hfound, n, ?_, ?_⟩
  · rw [htn, List.drop_drop, List.getElem?_drop] at hn
    rw [← hn]
  · rw [hent, hval]
    show lp.entries.length = n.val
    rw [dlp, entriesLoop_length, List.length_replicate, dec2, dfl, hrest, hnval]

/-- Witness of C14: "TOC" 00 00 02 "ch1" 00 "ch2" 00 decodes to two entries, and the byte two
positions after the first zero byte is 02. -/
theorem entries_length_is_count_byte_witness :
    readCTOCFrame readUint exampleDecoder 0
        [0x54, 0x4F, 0x43, 0, 0, 2, 0x63, 0x68, 0x31, 0, 0x63, 0x68, 0x32, 0] ()
      = some (⟨[0x54, 0x4F, 0x43], [[0x63, 0x68, 0x31], [0x63, 0x68, 0x32]], none⟩, none) ∧
    (bytesIndex [0x54, 0x4F, 0x43, 0, 0, 2, 0x63, 0x68, 0x31, 0, 0x63, 0x68, 0x32, 0] 0 ≠ -1 ∧
      ∃ n : Byte,
        ([0x54, 0x4F, 0x43, 0, 0, 2, 0x63, 0x68, 0x31, 0, 0x63, 0x68, 0x32, 0] : List Byte)[
            (bytesIndex [0x54, 0x4F, 0x43, 0, 0, 2, 0x63, 0x68, 0x31, 0, 0x63, 0x68, 0x32, 0]
              0).toNat + 2]? = some n ∧
          (ChapterTOC.mk [0x54, 0x4F, 0x43] [[0x63, 0x68, 0x31], [0x63, 0x68, 0x32]]
            none).Entries.length = n.val) :=
  ⟨by decide,
    entries_length_is_count_byte exampleDecoder 0
      [0x54, 0x4F, 0x43, 0, 0, 2, 0x63, 0x68, 0x31, 0, 0x63, 0x68, 0x32, 0] ()
      ⟨[0x54, 0x4F, 0x43], [[0x63, 0x68, 0x31], [0x63, 0x68, 0x32]], none⟩ (by decide)⟩

/-- C15 (truncated fixed field in CHAP): for every payload with a first zero byte at index
`ix` and `a = len(b) - ix - 1 < 16` bytes after it, `readChapFrame` fails with the zero value
and the error names the field being read: start time when `a < 4`, end time when
`4 ≤ a < 8`, start offset when `8 ≤ a < 12`, end offset when `12 ≤ a < 16`.  This holds for
every generic frame decoder and every fuel, none included: the decoder is never called. -/
theorem truncated_fixed_field {Format : Type} (dec : FrameDecoder Format) (fuel : Nat)
    (b : List Byte) (version : Format) (hfound : bytesIndex b 0 ≠ -1)
    (hshort : (b.length : Int) - bytesIndex b 0 - 1 < 16) :
    readChapFrame readUint dec fuel b version = some (Chapter.zero, some (
      if (b.length : Int) - bytesIndex b 0 - 1 < 4 then
        DecodeError.readingStartTime Cause.shortRead
      else if (b.length : Int) - bytesIndex b 0 - 1 < 8 then
        DecodeError.readingEndTime Cause.shortRead
      else if (b.length : Int) - bytesIndex b 0 - 1 < 12 then
        DecodeError.readingStartOffset Cause.shortRead
      else DecodeError.readingEndOffset Cause.shortRead)) := by
  obtain ⟨h0, hlt, _, _⟩ := bytesIndex_found b 0 hfound
  have hlen : ¬ b.length = 0 := by omega
  have htn : (bytesIndex b 0 + 1).toNat = (bytesIndex b 0).toNat + 1 := by omega
  have hr0 : (b.length : Int) - bytesIndex b 0 - 1
      = ((b.drop ((bytesIndex b 0).toNat + 1)).length : Int) := by
    rw [List.length_drop]
    omega
  rw [hr0] at hshort ⊢
  have key : ∀ r0 : Reader, b.drop ((bytesIndex b 0).toNat + 1) = r0 → (r0.length : Int) < 16 →
      readChapFrame readUint dec fuel b version = some (Chapter.zero, some (
        if (r0.length : Int) < 4 then DecodeError.readingStartTime Cause.shortRead
        else if (r0.length : Int) < 8 then DecodeError.readingEndTime Cause.shortRead
        else if (r0.length : Int) < 12 then DecodeError.readingStartOffset Cause.shortRead
        else DecodeError.readingEndOffset Cause.shortRead)) := by
    intro r0 hr hs
    have l1 : (r0.drop 4).length = r0.length - 4 := List.length_drop 4 r0
    have l2 : ((r0.drop 4).drop 4).length = r0.length - 8 := by
      rw [List.length_drop, l1]
      omega
    have l3 : (((r0.drop 4).drop 4).drop 4).length = r0.length - 12 := by
      rw [List.length_drop, l2]
      omega
    by_cases c1 : r0.length < 4
    · rw [if_pos (by omega)]
      unfold readChapFrame
      simp only [hlen, hfound, if_false, htn, hr, readChapterUint32_short r0 c1]
    · rw [if_neg (by omega)]
      by_cases c2 : r0.length < 8
      · rw [if_pos (by omega)]
        unfold readChapFrame
        simp only [hlen, hfound, if_false, htn, hr, readChapterUint32_long r0 (by omega),
          readChapterUint32_short (r0.drop 4) (by omega)]
      · rw [if_neg (by omega)]
        by_cases c3 : r0.length < 12
        · rw [if_pos (by omega)]
          unfold readChapFrame
          simp only [hlen, hfound, if_false, htn, hr, readChapterUint32_long r0 (by omega),
            readChapterUint32_long (r0.drop 4) (by omega),
            readChapterUint32_short ((r0.drop 4).drop 4) (by omega)]
        · rw [if_neg (by omega)]
          unfold readChapFrame
          simp only [hlen, hfound, if_false, htn, hr, readChapterUint32_long r0 (by omega),
            readChapterUint32_long (r0.drop 4) (by omega),
            readChapterUint32_long ((r0.drop 4).drop 4) (by omega),
            readChapterUint32_short (((r0.drop 4).drop 4).drop 4) (by omega)]
  exact key _ rfl hshort

/-- Witness of C15: "AB" 00 followed by five bytes, so the start time is read and the end time
is cut short. -/
theorem truncated_fixed_field_witness :
    (bytesIndex [0x41, 0x42, 0, 1, 2, 3, 4, 5] 0 ≠ -1 ∧
      (([0x41, 0x42, 0, 1, 2, 3, 4, 5] : List Byte).length : Int)
        - bytesIndex [0x41, 0x42, 0, 1, 2, 3, 4, 5] 0 - 1 < 16) ∧
    readChapFrame readUint exampleDecoder 0 [0x41, 0x42, 0, 1, 2, 3, 4, 5] ()
      = some (Chapter.zero, some (
        if (([0x41, 0x42, 0, 1, 2, 3, 4, 5] : List Byte).length : Int)
            - bytesIndex [0x41, 0x42, 0, 1, 2, 3, 4, 5] 0 - 1 < 4 then
          DecodeError.readingStartTime Cause.shortRead
        else if (([0x41, 0x42, 0, 1, 2, 3, 4, 5] : List Byte).length : Int)
            - bytesIndex [0x41, 0x42, 0, 1, 2, 3, 4, 5] 0 - 1 < 8 then
          DecodeError.readingEndTime Cause.shortRead
        else if (([0x41, 0x42, 0, 1, 2, 3, 4, 5] : List Byte).length : Int)
            - bytesIndex [0x41, 0x42, 0, 1, 2, 3, 4, 5] 0 - 1 < 12 then
          DecodeError.readingStartOffset Cause.shortRead
        else DecodeError.readingEndOffset Cause.shortRead)) :=
  ⟨⟨by decide, by decide⟩,
    truncated_fixed_field exampleDecoder 0 [0x41, 0x42, 0, 1, 2, 3, 4, 5] () (by decide)
      (by decide)⟩

/-- C16 (a CTOC entry-read failure carries the entry index): for a zero-free `id`, any flags
byte, a count byte `n` and a tail holding exactly `k` zero bytes with `k < n`, the payload
`id ++ [0] ++ [flags] ++ [n] ++ tail` makes `readCTOCFrame` fail with the entry-read error for
index `k`, caused by the end of the stream, and the zero value is returned: no table of contents
with the first `k` entries comes back. -/
theorem entry_read_failure_index {Format : Type} (dec : FrameDecoder Format) (fuel : Nat)
    (version : Format) (id : List Byte) (f n : Byte) (tail : List Byte)
    (hid : (0 : Byte) ∉ id) (hk : tail.count 0 < n.val) :
    readCTOCFrame readUint dec fuel (id ++ [0] ++ [f] ++ [n] ++ tail) version
      = some (ChapterTOC.zero, some (DecodeError.readingEntry (tail.count 0) Cause.eof)) := by
  have hix := bytesIndex_append id (f :: n :: tail) 0 hid
  have hne : ¬ ((id.length : Int) = -1) := by omega
  have htn : ((id.length : Int) + 1).toNat = id.length + 1 := by omega
  have hdrop : (id ++ 0 :: f :: n :: tail).drop (id.length + 1) = f :: n :: tail := by
    rw [show id ++ 0 :: f :: n :: tail = (id ++ [0]) ++ (f :: n :: tail) by simp]
    exact List.drop_left' (by simp)
  have hloop := entriesLoop_runs_out n.val 0 tail (List.replicate n.val [])
    ((id.length : Int) + 1 + 1 + 1) hk
  rw [Nat.zero_add] at hloop
  rw [show id ++ [0] ++ [f] ++ [n] ++ tail = id ++ 0 :: f :: n :: tail by simp]
  unfold readCTOCFrame
  simp only [hix, hne, if_false, htn, hdrop, readUint_one, hloop]

/-- Witness of C16: "TOC" 00 00 02 "ch1" 00 "ch2": two entries announced, one terminator. -/
theorem entry_read_failure_index_witness :
    ((0 : Byte) ∉ ([0x54, 0x4F, 0x43] : List Byte) ∧
      ([0x63, 0x68, 0x31, 0, 0x63, 0x68, 0x32] : List Byte).count 0 < (2 : Byte).val) ∧
    readCTOCFrame readUint exampleDecoder 0
        ([0x54, 0x4F, 0x43] ++ [0] ++ [0] ++ [2] ++ [0x63, 0x68, 0x31, 0, 0x63, 0x68, 0x32]) ()
      = some (ChapterTOC.zero, some (DecodeError.readingEntry
          (([0x63, 0x68, 0x31, 0, 0x63, 0x68, 0x32] : List Byte).count 0) Cause.eof)) :=
  ⟨⟨by decide, by decide⟩,
    entry_read_failure_index exampleDecoder 0 () [0x54, 0x4F, 0x43] 0 2
      [0x63, 0x68, 0x31, 0, 0x63, 0x68, 0x32] (by decide) (by decide)⟩

/-- C17 (the CTOC flags byte is consumed but not interpreted): for a zero-free `id`, two flag
bytes `f1` and `f2` and any remainder, with the same version, generic frame decoder and fuel,
`readCTOCFrame` returns the same outcome on `id ++ [0] ++ [f1] ++ rest` and on
`id ++ [0] ++ [f2] ++ rest`. -/
theorem flags_byte_not_interpreted {Format : Type} (dec : FrameDecoder Format) (fuel : Nat)
    (version : Format) (id : List Byte) (f1 f2 : Byte) (rest : List Byte)
    (hid : (0 : Byte) ∉ id) :
    readCTOCFrame readUint dec fuel (id ++ [0] ++ [f1] ++ rest) version
      = readCTOCFrame readUint dec fuel (id ++ [0] ++ [f2] ++ rest) version := by
  have hne : ¬ ((id.length : Int) = -1) := by omega
  have htn : ((id.length : Int) + 1).toNat = id.length + 1 := by omega
  have key : ∀ f : Byte, readCTOCFrame readUint dec fuel (id ++ [0] ++ [f] ++ rest) version
      = readCTOCFrame readUint dec fuel (id ++ [0] ++ [0] ++ rest) version := by
    intro f
    have hdrop : ∀ g : Byte, (id ++ 0 :: g :: rest).drop (id.length + 1) = g :: rest := by
      intro g
      rw [show id ++ 0 :: g :: rest = (id ++ [0]) ++ (g :: rest) by simp]
      exact List.drop_left' (by simp)
    rw [show id ++ [0] ++ [f] ++ rest = id ++ 0 :: f :: rest by simp,
      show id ++ [0] ++ [0] ++ rest = id ++ 0 :: 0 :: rest by simp]
    unfold readCTOCFrame
    simp only [bytesIndex_append id (f :: rest) 0 hid, bytesIndex_append id (0 :: rest) 0 hid,
      hne, if_false, htn, hdrop, readUint_one, Int.toNat_ofNat, List.take_left,
      List.length_append, List.length_cons]
  rw [key f1, key f2]

/-- Witness of C17: the "TOC" payload with flags 00 and with flags 03. -/
theorem flags_byte_not_interpreted_witness :
    (0 : Byte) ∉ ([0x54, 0x4F, 0x43] : List Byte) ∧
    readCTOCFrame readUint exampleDecoder 0
        ([0x54, 0x4F, 0x43] ++ [0] ++ [0] ++ [1, 0x63, 0]) ()
      = readCTOCFrame readUint exampleDecoder 0
        ([0x54, 0x4F, 0x43] ++ [0] ++ [3] ++ [1, 0x63, 0]) () :=
  ⟨by decide,
    flags_byte_not_interpreted exampleDecoder 0 () [0x54, 0x4F, 0x43] 0 3 [1, 0x63, 0]
      (by decide)⟩

theorem loopFails_pos {Format : Type} (dec : FrameDecoder Format) (version : Format)
    (fs : List ID3v2Frame) (reader : Reader) (extraBytes : Int)
    (hrun : LoopFails dec version reader extraBytes fs) : extraBytes > 0 := by
  cases fs with
  | nil => exact hrun.1
  | cons f rest => exact hrun.1

theorem embeddedLoop_of_fails {Format : Type} (dec : FrameDecoder Format) (version : Format)
    (fs : List ID3v2Frame) (fuel : Nat) (reader : Reader) (extraBytes : Int) (tags : GoMap)
    (hrun : LoopFails dec version reader extraBytes fs) (hfuel : fs.length < fuel) :
    ∃ cause, embeddedLoop dec version fuel reader extraBytes tags
      = some (Except.error (DecodeError.readingEmbeddedTags cause)) := by
  induction fs generalizing fuel reader extraBytes tags with
  | nil =>
    obtain ⟨hpos, hbad⟩ := hrun
    cases fuel with
    | zero => simp at hfuel
    | succ fuel =>
      unfold embeddedLoop
      simp only [gt_iff_lt, hpos, if_true]
      cases herr : (dec reader version).err with
      | some e => exact ⟨some e, rfl⟩
      | none =>
        rcases hbad with hb | hb
        · exact absurd herr hb
        · simp only [hb]
          exact ⟨none, rfl⟩
  | cons f rest ih =>
    obtain ⟨hpos, herr, hframe, hrest⟩ := hrun
    cases fuel with
    | zero => simp at hfuel
    | succ fuel =>
      have hf : rest.length < fuel := by simpa using hfuel
      unfold embeddedLoop
      simp only [gt_iff_lt, hpos, if_true, herr, hframe]
      exact ih fuel _ _ _ hrest hf

/-- C18 (a failure of the generic frame decoder aborts the whole decode): for every CHAP or
CTOC payload whose fixed part parses and whose trailing region `T` is not empty, if the
embedded-frame loop obtains the frames `fs` (possibly none) and its next call of the generic
frame decoder returns an error, or no frame and no error, then `readChapFrame` and
`readCTOCFrame` return the embedded-tags error together with the zero value: the frames
collected so far are not returned. -/
theorem decoder_failure_aborts {Format : Type} (dec : FrameDecoder Format) (fuel : Nat)
    (version : Format) (id w1 w2 w3 w4 : List Byte) (f n : Byte) (es : List GoString)
    (T : List Byte) (fs : List ID3v2Frame) (hid : (0 : Byte) ∉ id)
    (h1 : w1.length = 4) (h2 : w2.length = 4) (h3 : w3.length = 4) (h4 : w4.length = 4)
    (hes : ∀ e ∈ es, (0 : Byte) ∉ e) (hn : es.length = n.val)
    (hrun : LoopFails dec version T (T.length : Int) fs) (hfuel : fs.length < fuel) :
    (∃ cause, readChapFrame readUint dec fuel (id ++ [0] ++ w1 ++ w2 ++ w3 ++ w4 ++ T) version
        = some (Chapter.zero, some (DecodeError.readingEmbeddedTags cause))) ∧
    (∃ cause,
      readCTOCFrame readUint dec fuel (id ++ [0] ++ [f] ++ [n] ++ encodeEntries es ++ T) version
        = some (ChapterTOC.zero, some (DecodeError.readingEmbeddedTags cause))) := by
  have hpos := loopFails_pos dec version fs T _ hrun
  obtain ⟨cause, hloop⟩ := embeddedLoop_of_fails dec version fs fuel T _ [] hrun hfuel
  refine ⟨⟨cause, ?_⟩, ⟨cause, ?_⟩⟩
  · have h := readChapFrame_layout dec fuel version id w1 w2 w3 w4 T hid h1 h2 h3 h4
    rw [show id ++ [0] ++ w1 ++ w2 ++ w3 ++ w4 ++ T
        = id ++ 0 :: (w1 ++ (w2 ++ (w3 ++ (w4 ++ T)))) by simp, h, if_pos hpos, hloop]
  · have h := readCTOCFrame_layout dec fuel version id f n es T hid hes hn
    rw [show id ++ [0] ++ [f] ++ [n] ++ encodeEntries es ++ T
        = id ++ 0 :: f :: n :: (encodeEntries es ++ T) by simp, h, if_pos hpos, hloop]

/-- Witness of C18: the "Intro" frame followed by three stray bytes; the second call of the
decoder fails on the stray bytes. -/
theorem decoder_failure_aborts_witness :
    ((0 : Byte) ∉ ([0x41, 0x42] : List Byte) ∧
      (∀ e ∈ ([] : List GoString), (0 : Byte) ∉ e) ∧
      ([] : List GoString).length = (0 : Byte).val ∧
      LoopFails exampleDecoder () introThenStray (introThenStray.length : Int)
        [⟨TIT2, Payload.str [0x49, 0x6E, 0x74, 0x72, 0x6F], 16⟩]) ∧
    ((∃ cause, readChapFrame readUint exampleDecoder 2
          ([0x41, 0x42] ++ [0] ++ [0, 0, 0, 0] ++ [0, 0, 0, 10] ++ [0, 0, 0, 0] ++ [0, 0, 0, 20]
            ++ introThenStray) ()
        = some (Chapter.zero, some (DecodeError.readingEmbeddedTags cause))) ∧
      (∃ cause, readCTOCFrame readUint exampleDecoder 2
          ([0x41, 0x42] ++ [0] ++ [0] ++ [0] ++ encodeEntries [] ++ introThenStray) ()
        = some (ChapterTOC.zero, some (DecodeError.readingEmbeddedTags cause)))) :=
  ⟨⟨by decide, by decide, by decide, by decide⟩,
    decoder_failure_aborts exampleDecoder 2 () [0x41, 0x42] [0, 0, 0, 0] [0, 0, 0, 10]
      [0, 0, 0, 0] [0, 0, 0, 20] 0 0 [] introThenStray
      [⟨TIT2, Payload.str [0x49, 0x6E, 0x74, 0x72, 0x6F], 16⟩]
      (by decide) rfl rfl rfl rfl (by decide) (by decide) (by decide) (by decide)⟩

theorem chapFixed_accounting (b : List Byte) (st : FixedPart Chapter)
    (h : readChapFixed readUint b = Except.ok st) :
    st.extraBytes = (st.reader.length : Int) := by
  obtain ⟨_, hfound, a1, a2, a3, a4, d1, d2, d3, d4, k1, k2, k3, k4, hval⟩ :=
    readChapFixed_ok readUint b st h
  obtain ⟨h0, hlt, _, _⟩ := bytesIndex_found b 0 hfound
  have htn : (bytesIndex b 0 + 1).toNat = (bytesIndex b 0).toNat + 1 := by omega
  rw [d1] at k1
  obtain ⟨g1, e1⟩ := readChapterUint32_ok _ k1
  rw [d2, d1, e1] at k2
  obtain ⟨g2, e2⟩ := readChapterUint32_ok _ k2
  rw [d3, d2, d1, e1, e2] at k3
  obtain ⟨g3, e3⟩ := readChapterUint32_ok _ k3
  rw [d4, d3, d2, d1, e1, e2, e3] at k4
  obtain ⟨g4, e4⟩ := readChapterUint32_ok _ k4
  have hrest : a4.rest
      = ((((b.drop (bytesIndex b 0 + 1).toNat).drop 4).drop 4).drop 4).drop 4 := by
    rw [d4, d3, d2, d1, e1, e2, e3, e4]
  rw [hval]
  show (b.length : Int) - (bytesIndex b 0 + 1 + 16) = (a4.rest.length : Int)
  rw [hrest]
  simp only [List.length_drop] at g1 g2 g3 g4 ⊢
  omega

theorem ctocFixed_accounting (b : List Byte) (st : FixedPart ChapterTOC)
    (h : readCTOCFixed readUint b = Except.ok st) :
    st.extraBytes = (st.reader.length : Int) := by
  obtain ⟨hfound, fl, ec, lp, dfl, dec2, dlp, kfl, kec, klp, hval⟩ :=
    readCTOCFixed_ok readUint b st h
  obtain ⟨h0, hlt, _, _⟩ := bytesIndex_found b 0 hfound
  have htn : (bytesIndex b 0 + 1).toNat = (bytesIndex b 0).toNat + 1 := by omega
  rw [dfl] at kfl
  obtain ⟨g1, e1⟩ := readUint_ok _ 1 kfl
  rw [dec2, dfl, e1] at kec
  obtain ⟨g2, e2⟩ := readUint_ok _ 1 kec
  have hecrest : ec.rest = ((b.drop (bytesIndex b 0 + 1).toNat).drop 1).drop 1 := by
    rw [dec2, dfl, e1, e2]
  rw [dlp] at klp
  have hacc := entriesLoop_accounting _ _ _ _ _ klp
  rw [← dlp, hecrest] at hacc
  rw [hval]
  show (b.length : Int) - lp.bytesRead = (lp.rest.length : Int)
  simp only [List.length_drop] at g1 g2 hacc
  omega

/-- C19 (byte accounting matches the stream): in `readChapFrame` and in `readCTOCFrame`, when
the fixed part (element id, four integers; element id, flags, count and all entries) is read
without error, the remainder `extraBytes = len(b) - bytesRead` equals the number of bytes the
reader has not delivered yet at the moment the embedded-frame part is entered; so it is never
negative and it is 0 exactly when the reader is exhausted.  The last conjunct of each half
states that the decoder continues from exactly this reader and this `extraBytes`. -/
theorem byte_accounting_matches_stream {Format : Type} (dec : FrameDecoder Format) (fuel : Nat)
    (b : List Byte) (version : Format) :
    (∀ st : FixedPart Chapter, readChapFixed readUint b = Except.ok st →
      st.extraBytes = (st.reader.length : Int) ∧ 0 ≤ st.extraBytes ∧
      (st.extraBytes = 0 ↔ st.reader = []) ∧
      readChapFrame readUint dec fuel b version =
        if st.extraBytes > 0 then
          match embeddedLoop dec version fuel st.reader st.extraBytes [] with
          | none => none
          | some (Except.error e) => some (Chapter.zero, some e)
          | some (Except.ok tags) => some ({ st.result with EmbeddedTags := some tags }, none)
        else some (st.result, none)) ∧
    (∀ st : FixedPart ChapterTOC, readCTOCFixed readUint b = Except.ok st →
      st.extraBytes = (st.reader.length : Int) ∧ 0 ≤ st.extraBytes ∧
      (st.extraBytes = 0 ↔ st.reader = []) ∧
      readCTOCFrame readUint dec fuel b version =
        if st.extraBytes > 0 then
          match embeddedLoop dec version fuel st.reader st.extraBytes [] with
          | none => none
          | some (Except.error e) => some (ChapterTOC.zero, some e)
          | some (Except.ok tags) => some ({ st.result with EmbeddedTags := some tags }, none)
        else some (st.result, none)) := by
  refine ⟨?_, ?_⟩
  · intro st h
    have hacc := chapFixed_accounting b st h
    refine ⟨hacc, by omega, ?_, ?_⟩
    · rw [hacc]
      constructor
      · intro hz
        exact List.length_eq_zero.mp (by omega)
      · intro hnil
        rw [hnil]
        rfl
    · rw [readChapFrame_eq_fixed, h]
  · intro st h
    have hacc := ctocFixed_accounting b st h
    refine ⟨hacc, by omega, ?_, ?_⟩
    · rw [hacc]
      constructor
      · intro hz
        exact List.length_eq_zero.mp (by omega)
      · intro hnil
        rw [hnil]
        rfl
    · rw [readCTOCFrame_eq_fixed, h]

/-- Witness of C19: "AB" 00, sixteen zero bytes and the 16-byte "Intro" frame as a CHAP
payload, and "TOC" 00 00 01 "c" 00 followed by the same frame as a CTOC payload: in both the
remainder is 16 and the reader holds the 16 bytes of the frame. -/
theorem byte_accounting_matches_stream_witness :
    (readChapFixed readUint
        ([0x41, 0x42, 0, 0, 0, 0, 0, 0, 0, 0, 0, 0, 0, 0, 0, 0, 0, 0, 0] ++ introFrame)
      = Except.ok ⟨⟨[0x41, 0x42], 0, 0, 0, 0, none⟩, introFrame, 16⟩ ∧
      readCTOCFixed readUint ([0x54, 0x4F, 0x43, 0, 0, 1, 0x63, 0] ++ introFrame)
      = Except.ok ⟨⟨[0x54, 0x4F, 0x43], [[0x63]], none⟩, introFrame, 16⟩) ∧
    ((FixedPart.mk (Chapter.mk [0x41, 0x42] 0 0 0 0 none) introFrame 16).extraBytes
        = ((FixedPart.mk (Chapter.mk [0x41, 0x42] 0 0 0 0 none) introFrame 16).reader.length
          : Int) ∧
      (FixedPart.mk (ChapterTOC.mk [0x54, 0x4F, 0x43] [[0x63]] none) introFrame 16).extraBytes
        = ((FixedPart.mk (ChapterTOC.mk [0x54, 0x4F, 0x43] [[0x63]] none) introFrame
            16).reader.length : Int)) :=
  ⟨⟨by rfl, by rfl⟩,
    ((byte_accounting_matches_stream exampleDecoder 1
        ([0x41, 0x42, 0, 0, 0, 0, 0, 0, 0, 0, 0, 0, 0, 0, 0, 0, 0, 0, 0] ++ introFrame) ()).1
      ⟨⟨[0x41, 0x42], 0, 0, 0, 0, none⟩, introFrame, 16⟩ (by rfl)).1,
    ((byte_accounting_matches_stream exampleDecoder 1
        ([0x54, 0x4F, 0x43, 0, 0, 1, 0x63, 0] ++ introFrame) ()).2
      ⟨⟨[0x54, 0x4F, 0x43], [[0x63]], none⟩, introFrame, 16⟩ (by rfl)).1⟩

/-- C20 (the element id is the part before the first zero byte): for every non-empty payload
`b`, every version, every behaviour of the two collaborators and every fuel, if `readChapFrame`
or `readCTOCFrame` succeeds then the returned element id holds no zero byte and
`b = ElementID ++ [0] ++ rest` for some `rest`; and no entry of a successfully decoded table of
contents holds a zero byte. -/
theorem element_id_before_first_zero {Format : Type} (ru : UintReader)
    (dec : FrameDecoder Format) (fuel : Nat) (b : List Byte) (version : Format)
    (hne : b ≠ []) :
    (∀ c : Chapter, readChapFrame ru dec fuel b version = some (c, none) →
      (0 : Byte) ∉ c.ElementID ∧ ∃ rest, b = c.ElementID ++ [0] ++ rest) ∧
    (∀ toc : ChapterTOC, readCTOCFrame ru dec fuel b version = some (toc, none) →
      (0 : Byte) ∉ toc.ElementID ∧ (∃ rest, b = toc.ElementID ++ [0] ++ rest) ∧
      ∀ e ∈ toc.Entries, (0 : Byte) ∉ e) := by
  refine ⟨?_, ?_⟩
  · intro c h
    rcases readChapFrame_success ru dec fuel b version c h with ⟨hnil, _⟩ | ⟨st, hst, hid, _⟩
    · exact absurd hnil hne
    · obtain ⟨_, hfound, a1, a2, a3, a4, _, _, _, _, _, _, _, _, hval⟩ :=
        readChapFixed_ok ru b st hst
      obtain ⟨_, _, hfree, hsplit⟩ := bytesIndex_found b 0 hfound
      have hel : c.ElementID = b.take (bytesIndex b 0).toNat := by
        rw [hid, hval]
      rw [hel]
      refine ⟨hfree, b.drop ((bytesIndex b 0).toNat + 1), ?_⟩
      rw [List.append_assoc, List.singleton_append]
      exact hsplit
  · intro toc h
    obtain ⟨st, hst, hid, hent⟩ := readCTOCFrame_success ru dec fuel b version toc h
    obtain ⟨hfound, fl, ec, lp, _, _, dlp, _, _, _, hval⟩ := readCTOCFixed_ok ru b st hst
    obtain ⟨_, _, hfree, hsplit⟩ := bytesIndex_found b 0 hfound
    have hel : toc.ElementID = b.take (bytesIndex b 0).toNat := by
      rw [hid, hval]
    have hen : toc.Entries = lp.entries := by
      rw [hent, hval]
    rw [hel, hen, dlp]
    refine ⟨hfree, ⟨b.drop ((bytesIndex b 0).toNat + 1), ?_⟩, ?_⟩
    · rw [List.append_assoc, List.singleton_append]
      exact hsplit
    · apply entriesLoop_zero_free
      intro e he
      rw [List.eq_of_mem_replicate he]
      simp

/-- Witness of C20: "AB" 00 with sixteen FF bytes as a CHAP payload, and
"TOC" 00 00 01 "c" 00 as a CTOC payload. -/
theorem element_id_before_first_zero_witness :
    (([0x41, 0x42, 0, 0xFF, 0xFF, 0xFF, 0xFF, 0xFF, 0xFF, 0xFF, 0xFF, 0xFF, 0xFF, 0xFF, 0xFF,
        0xFF, 0xFF, 0xFF, 0xFF] : List Byte) ≠ [] ∧
      readChapFrame readUint exampleDecoder 0
          [0x41, 0x42, 0, 0xFF, 0xFF, 0xFF, 0xFF, 0xFF, 0xFF, 0xFF, 0xFF, 0xFF, 0xFF, 0xFF, 0xFF,
            0xFF, 0xFF, 0xFF, 0xFF] ()
        = some (⟨[0x41, 0x42], 0, 0, 0, 0, none⟩, none) ∧
      ([0x54, 0x4F, 0x43, 0, 0, 1, 0x63, 0] : List Byte) ≠ [] ∧
      readCTOCFrame readUint exampleDecoder 0 [0x54, 0x4F, 0x43, 0, 0, 1, 0x63, 0] ()
        = some (⟨[0x54, 0x4F, 0x43], [[0x63]], none⟩, none)) ∧
    ((0 : Byte) ∉ (Chapter.mk [0x41, 0x42] 0 0 0 0 none).ElementID ∧
      ∃ rest, ([0x41, 0x42, 0, 0xFF, 0xFF, 0xFF, 0xFF, 0xFF, 0xFF, 0xFF, 0xFF, 0xFF, 0xFF, 0xFF,
          0xFF, 0xFF, 0xFF, 0xFF, 0xFF] : List Byte)
        = (Chapter.mk [0x41, 0x42] 0 0 0 0 none).ElementID ++ [0] ++ rest) ∧
    ((0 : Byte) ∉ (ChapterTOC.mk [0x54, 0x4F, 0x43] [[0x63]] none).ElementID ∧
      (∃ rest, ([0x54, 0x4F, 0x43, 0, 0, 1, 0x63, 0] : List Byte)
        = (ChapterTOC.mk [0x54, 0x4F, 0x43] [[0x63]] none).ElementID ++ [0] ++ rest) ∧
      ∀ e ∈ (ChapterTOC.mk [0x54, 0x4F, 0x43] [[0x63]] none).Entries, (0 : Byte) ∉ e) :=
  ⟨⟨by decide, by decide, by decide, by decide⟩,
    (element_id_before_first_zero readUint exampleDecoder 0
        [0x41, 0x42, 0, 0xFF, 0xFF, 0xFF, 0xFF, 0xFF, 0xFF, 0xFF, 0xFF, 0xFF, 0xFF, 0xFF, 0xFF,
          0xFF, 0xFF, 0xFF, 0xFF] () (by decide)).1
      ⟨[0x41, 0x42], 0, 0, 0, 0, none⟩ (by decide),
    (element_id_before_first_zero readUint exampleDecoder 0
        [0x54, 0x4F, 0x43, 0, 0, 1, 0x63, 0] () (by decide)).2
      ⟨[0x54, 0x4F, 0x43], [[0x63]], none⟩ (by decide)⟩

/-! ## The embedded-frame loop under the decoder contract -/

theorem tagsLookup_recordFrames (fs : List ID3v2Frame) (k : GoString) :
    tagsLookup (some (recordFrames [] fs)) k = lastPayload fs k := by
  show mapLookup (recordFrames [] fs) k = lastPayload fs k
  rw [mapLookup_recordFrames]
  cases lastPayload fs k <;> rfl

theorem exampleDecoder_cases (r : Reader) (v : Unit) :
    (exampleDecoder r v).frame = none ∧ (exampleDecoder r v).err ≠ none ∨
    (10 + beValue ((r.drop 4).take 4) ≤ r.length ∧
      (exampleDecoder r v).rest = r.drop (10 + beValue ((r.drop 4).take 4)) ∧
      ∃ name data, (exampleDecoder r v).frame
        = some ⟨name, data, 10 + beValue ((r.drop 4).take 4)⟩) := by
  unfold exampleDecoder
  by_cases h10 : r.length < 10
  · left
    rw [if_pos h10]
    exact ⟨rfl, by simp⟩
  · rw [if_neg h10]
    by_cases hb : (r.drop 10).length < beValue ((r.drop 4).take 4)
    · left
      rw [List.length_drop] at hb
      simp [hb]
    · right
      simp only [hb, if_false]
      rw [List.length_drop] at hb
      refine ⟨by omega, ?_, _, _, rfl⟩
      rw [List.drop_drop, Nat.add_comm]

theorem exampleDecoder_onWire : OnWireDecoder exampleDecoder := by
  intro r v g herr hframe
  rcases exampleDecoder_cases r v with ⟨_, hne⟩ | ⟨hle, hrest, name, data, hf⟩
  · exact absurd herr hne
  · rw [hf] at hframe
    rw [← Option.some.inj hframe]
    exact ⟨hle, hrest⟩

theorem exampleDecoder_positive (r : Reader) (v : Unit) (g : ID3v2Frame)
    (hframe : (exampleDecoder r v).frame = some g) : 0 < g.totalFrameSize := by
  rcases exampleDecoder_cases r v with ⟨hnone, _⟩ | ⟨_, _, name, data, hf⟩
  · rw [hnone] at hframe
    simp at hframe
  · rw [hf] at hframe
    rw [← Option.some.inj hframe]
    show 0 < 10 + beValue ((r.drop 4).take 4)
    omega

theorem embeddedLoop_onWire {Format : Type} (dec : FrameDecoder Format) (version : Format)
    (hdec : OnWireDecoder dec) (fuel : Nat) (r : Reader) (tags : GoMap)
    (res : Except DecodeError GoMap)
    (h : embeddedLoop dec version fuel r (r.length : Int) tags = some res) :
    (∃ cause, res = Except.error (DecodeError.readingEmbeddedTags cause)) ∨
    (∃ fs, LoopObtains dec version r (r.length : Int) fs ∧ totalSize fs = (r.length : Int) ∧
      res = Except.ok (recordFrames tags fs)) := by
  have stop : ∀ (r : Reader) (tags : GoMap) (res : Except DecodeError GoMap),
      ¬ (r.length : Int) > 0 → some (Except.ok tags) = some res →
      ∃ fs, LoopObtains dec version r (r.length : Int) fs ∧ totalSize fs = (r.length : Int) ∧
        res = Except.ok (recordFrames tags fs) := by
    intro r tags res hpos h
    refine ⟨[], ?_, ?_, (Option.some.inj h).symm⟩
    · simp only [LoopObtains]
      omega
    · simp only [totalSize, List.map_nil, List.sum_nil]
      omega
  induction fuel generalizing r tags with
  | zero =>
    unfold embeddedLoop at h
    by_cases hpos : (r.length : Int) > 0
    · simp [hpos] at h
    · simp only [hpos, if_false] at h
      exact Or.inr (stop r tags res hpos h)
  | succ fuel ih =>
    unfold embeddedLoop at h
    by_cases hpos : (r.length : Int) > 0
    · simp only [hpos, if_true] at h
      cases herr : (dec r version).err with
      | some e =>
        simp only [herr, Option.some.injEq] at h
        exact Or.inl ⟨some e, h.symm⟩
      | none =>
        simp only [herr] at h
        cases hframe : (dec r version).frame with
        | none =>
          simp only [hframe, Option.some.injEq] at h
          exact Or.inl ⟨none, h.symm⟩
        | some g =>
          simp only [hframe] at h
          obtain ⟨hle, hrest⟩ := hdec r version g herr hframe
          have hlen : (r.length : Int) - (g.totalFrameSize : Int)
              = (((dec r version).rest).length : Int) := by
            rw [hrest, List.length_drop]
            omega
          rw [hlen] at h
          rcases ih _ _ h with ⟨cause, hc⟩ | ⟨fs, hrun, hsum, hres⟩
          · exact Or.inl ⟨cause, hc⟩
          · right
            refine ⟨g :: fs, ⟨hpos, herr, hframe, ?_⟩, ?_, hres⟩
            · rw [hlen]
              exact hrun
            · simp only [totalSize, List.map_cons, List.sum_cons] at hsum ⊢
              omega
    · simp only [hpos, if_false] at h
      exact Or.inr (stop r tags res hpos h)

theorem embeddedLoop_ends {Format : Type} (dec : FrameDecoder Format) (version : Format)
    (hdec : OnWireDecoder dec)
    (hsize : ∀ (r : Reader) (v : Format) (g : ID3v2Frame),
      (dec r v).frame = some g → 0 < g.totalFrameSize)
    (fuel : Nat) (r : Reader) (tags : GoMap) (hfuel : r.length < fuel) :
    embeddedLoop dec version fuel r (r.length : Int) tags ≠ none := by
  induction fuel generalizing r tags with
  | zero => omega
  | succ fuel ih =>
    unfold embeddedLoop
    by_cases hpos : (r.length : Int) > 0
    · simp only [hpos, if_true]
      cases herr : (dec r version).err with
      | some e => simp
      | none =>
        simp only []
        cases hframe : (dec r version).frame with
        | none => simp
        | some g =>
          simp only []
          obtain ⟨hle, hrest⟩ := hdec r version g herr hframe
          have hg := hsize r version g hframe
          have hlen : (r.length : Int) - (g.totalFrameSize : Int)
              = (((dec r version).rest).length : Int) := by
            rw [hrest, List.length_drop]
            omega
          rw [hlen]
          apply ih
          rw [hrest, List.length_drop]
          omega
    · simp [hpos]

/-- C9 (embedded-region overshoot is a failure): take a generic frame decoder that honours
its contract, so that the size a returned frame reports is its total on-wire size, and a CHAP
or CTOC payload whose fixed part parses and whose trailing region `T` has `R > 0` bytes.  Every
outcome of `readChapFrame` / `readCTOCFrame` is then either the embedded-tags failure, with the
zero value and no chapter or table of contents, or a success in which the sizes reported by
the frames obtained add up to exactly `R`.  So the decode never stops and returns success with
the running sum beyond `R`: when the frames do not account for exactly `R` bytes, the outcome
is the failure.  With frames of positive size and more fuel than `R`, the decode always
returns. -/
theorem embedded_overshoot_is_failure {Format : Type} (dec : FrameDecoder Format)
    (hdec : OnWireDecoder dec) (fuel : Nat) (version : Format) (id w1 w2 w3 w4 : List Byte)
    (f n : Byte) (es : List GoString) (T : List Byte) (hid : (0 : Byte) ∉ id)
    (h1 : w1.length = 4) (h2 : w2.length = 4) (h3 : w3.length = 4) (h4 : w4.length = 4)
    (hes : ∀ e ∈ es, (0 : Byte) ∉ e) (hn : es.length = n.val) (hT : T ≠ []) :
    (∀ c e, readChapFrame readUint dec fuel (id ++ [0] ++ w1 ++ w2 ++ w3 ++ w4 ++ T) version
        = some (c, e) →
      (∃ cause, e = some (DecodeError.readingEmbeddedTags cause) ∧ c = Chapter.zero) ∨
      (e = none ∧ ∃ fs, LoopObtains dec version T (T.length : Int) fs ∧
        totalSize fs = (T.length : Int) ∧
        ∀ k, tagsLookup c.EmbeddedTags k = lastPayload fs k)) ∧
    (∀ toc e,
      readCTOCFrame readUint dec fuel (id ++ [0] ++ [f] ++ [n] ++ encodeEntries es ++ T) version
        = some (toc, e) →
      (∃ cause, e = some (DecodeError.readingEmbeddedTags cause) ∧ toc = ChapterTOC.zero) ∨
      (e = none ∧ ∃ fs, LoopObtains dec version T (T.length : Int) fs ∧
        totalSize fs = (T.length : Int) ∧
        ∀ k, tagsLookup toc.EmbeddedTags k = lastPayload fs k)) ∧
    ((∀ (r : Reader) (v : Format) (g : ID3v2Frame),
        (dec r v).frame = some g → 0 < g.totalFrameSize) → T.length < fuel →
      readChapFrame readUint dec fuel (id ++ [0] ++ w1 ++ w2 ++ w3 ++ w4 ++ T) version ≠ none ∧
      readCTOCFrame readUint dec fuel (id ++ [0] ++ [f] ++ [n] ++ encodeEntries es ++ T) version
        ≠ none) := by
  have hpos : (T.length : Int) > 0 := by
    have := List.length_pos.mpr hT
    omega
  have hchap := readChapFrame_layout dec fuel version id w1 w2 w3 w4 T hid h1 h2 h3 h4
  have hctoc := readCTOCFrame_layout dec fuel version id f n es T hid hes hn
  rw [if_pos hpos] at hchap hctoc
  rw [show id ++ [0] ++ w1 ++ w2 ++ w3 ++ w4 ++ T
      = id ++ 0 :: (w1 ++ (w2 ++ (w3 ++ (w4 ++ T)))) by simp,
    show id ++ [0] ++ [f] ++ [n] ++ encodeEntries es ++ T
      = id ++ 0 :: f :: n :: (encodeEntries es ++ T) by simp, hchap, hctoc]
  refine ⟨?_, ?_, ?_⟩
  · intro c e h
    cases hl : embeddedLoop dec version fuel T (T.length : Int) [] with
    | none =>
      rw [hl] at h
      simp at h
    | some res =>
      rw [hl] at h
      rcases embeddedLoop_onWire dec version hdec fuel T [] res hl with
        ⟨cause, hc⟩ | ⟨fs, hrun, hsum, hres⟩
      · rw [hc] at h
        simp only [Option.some.injEq, Prod.mk.injEq] at h
        exact Or.inl ⟨cause, h.2.symm, h.1.symm⟩
      · rw [hres] at h
        simp only [Option.some.injEq, Prod.mk.injEq] at h
        refine Or.inr ⟨h.2.symm, fs, hrun, hsum, ?_⟩
        intro k
        rw [← h.1]
        exact tagsLookup_recordFrames fs k
  · intro toc e h
    cases hl : embeddedLoop dec version fuel T (T.length : Int) [] with
    | none =>
      rw [hl] at h
      simp at h
    | some res =>
      rw [hl] at h
      rcases embeddedLoop_onWire dec version hdec fuel T [] res hl with
        ⟨cause, hc⟩ | ⟨fs, hrun, hsum, hres⟩
      · rw [hc] at h
        simp only [Option.some.injEq, Prod.mk.injEq] at h
        exact Or.inl ⟨cause, h.2.symm, h.1.symm⟩
      · rw [hres] at h
        simp only [Option.some.injEq, Prod.mk.injEq] at h
        refine Or.inr ⟨h.2.symm, fs, hrun, hsum, ?_⟩
        intro k
        rw [← h.1]
        exact tagsLookup_recordFrames fs k
  · intro hsize hfuel
    have hends := embeddedLoop_ends dec version hdec hsize fuel T [] hfuel
    cases hl : embeddedLoop dec version fuel T (T.length : Int) [] with
    | none => exact absurd hl hends
    | some res =>
      cases res with
      | error e => exact ⟨by simp, by simp⟩
      | ok tags => exact ⟨by simp, by simp⟩

/-- Witness of C9.  The region `cutFrame` declares a frame of 16 bytes and holds 13: the decode
is the embedded-tags failure with the zero value.  The region `introFrame` holds the whole
16-byte frame: the decode succeeds and the size of the frame obtained is the 16 bytes of the
region. -/
theorem embedded_overshoot_is_failure_witness :
    (OnWireDecoder exampleDecoder ∧ (0 : Byte) ∉ ([0x41, 0x42] : List Byte) ∧
      (∀ e ∈ ([] : List GoString), (0 : Byte) ∉ e) ∧
      ([] : List GoString).length = (0 : Byte).val ∧ cutFrame ≠ [] ∧ introFrame ≠ [] ∧
      readChapFrame readUint exampleDecoder 14
          ([0x41, 0x42] ++ [0] ++ [0, 0, 0, 0] ++ [0, 0, 0, 0] ++ [0, 0, 0, 0] ++ [0, 0, 0, 0]
            ++ cutFrame) ()
        = some (Chapter.zero,
            some (DecodeError.readingEmbeddedTags (some Cause.shortRead))) ∧
      readCTOCFrame readUint exampleDecoder 17
          ([0x41, 0x42] ++ [0] ++ [0] ++ [0] ++ encodeEntries [] ++ introFrame) ()
        = some (⟨[0x41, 0x42], [], some [(TIT2, Payload.str [0x49, 0x6E, 0x74, 0x72, 0x6F])]⟩,
            none)) ∧
    ((∃ cause, some (DecodeError.readingEmbeddedTags (some Cause.shortRead))
          = some (DecodeError.readingEmbeddedTags cause) ∧ Chapter.zero = Chapter.zero) ∨
      ((some (DecodeError.readingEmbeddedTags (some Cause.shortRead)) : Option DecodeError)
          = none ∧
        ∃ fs, LoopObtains exampleDecoder () cutFrame (cutFrame.length : Int) fs ∧
          totalSize fs = (cutFrame.length : Int) ∧
          ∀ k, tagsLookup Chapter.zero.EmbeddedTags k = lastPayload fs k)) ∧
    ((∃ cause, (none : Option DecodeError) = some (DecodeError.readingEmbeddedTags cause) ∧
        (ChapterTOC.mk [0x41, 0x42] []
          (some [(TIT2, Payload.str [0x49, 0x6E, 0x74, 0x72, 0x6F])])) = ChapterTOC.zero) ∨
      ((none : Option DecodeError) = none ∧
        ∃ fs, LoopObtains exampleDecoder () introFrame (introFrame.length : Int) fs ∧
          totalSize fs = (introFrame.length : Int) ∧
          ∀ k, tagsLookup (ChapterTOC.mk [0x41, 0x42] []
              (some [(TIT2, Payload.str [0x49, 0x6E, 0x74, 0x72, 0x6F])])).EmbeddedTags k
            = lastPayload fs k)) ∧
    ((∀ (r : Reader) (v : Unit) (g : ID3v2Frame),
        (exampleDecoder r v).frame = some g → 0 < g.totalFrameSize) ∧
      cutFrame.length < 14 ∧
      readChapFrame readUint exampleDecoder 14
          ([0x41, 0x42] ++ [0] ++ [0, 0, 0, 0] ++ [0, 0, 0, 0] ++ [0, 0, 0, 0] ++ [0, 0, 0, 0]
            ++ cutFrame) () ≠ none ∧
      readCTOCFrame readUint exampleDecoder 14
          ([0x41, 0x42] ++ [0] ++ [0] ++ [0] ++ encodeEntries [] ++ cutFrame) () ≠ none) :=
  ⟨⟨exampleDecoder_onWire, by decide, by decide, by decide, by decide, by decide, by decide,
      by decide⟩,
    (embedded_overshoot_is_failure exampleDecoder exampleDecoder_onWire 14 () [0x41, 0x42]
        [0, 0, 0, 0] [0, 0, 0, 0] [0, 0, 0, 0] [0, 0, 0, 0] 0 0 [] cutFrame
        (by decide) rfl rfl rfl rfl (by decide) (by decide) (by decide)).1
      Chapter.zero (some (DecodeError.readingEmbeddedTags (some Cause.shortRead))) (by decide),
    (embedded_overshoot_is_failure exampleDecoder exampleDecoder_onWire 17 () [0x41, 0x42]
        [0, 0, 0, 0] [0, 0, 0, 0] [0, 0, 0, 0] [0, 0, 0, 0] 0 0 [] introFrame
        (by decide) rfl rfl rfl rfl (by decide) (by decide) (by decide)).2.1
      ⟨[0x41, 0x42], [], some [(TIT2, Payload.str [0x49, 0x6E, 0x74, 0x72, 0x6F])]⟩ none
      (by decide),
    exampleDecoder_positive, by decide,
    (embedded_overshoot_is_failure exampleDecoder exampleDecoder_onWire 14 () [0x41, 0x42]
        [0, 0, 0, 0] [0, 0, 0, 0] [0, 0, 0, 0] [0, 0, 0, 0] 0 0 [] cutFrame
        (by decide) rfl rfl rfl rfl (by decide) (by decide) (by decide)).2.2
      exampleDecoder_positive (by decide)⟩

end Tag
